import Mathlib

/-!
Verification of the glottolog3 bibliography reconciliation engine
(`glottolog3/scripts/import_refs.py`) and the languoid classification
model (`glottolog3/models.py`).

The Python source is embedded shallowly:

* raw bibliographic records and side-bags become association lists of
  strings;
* the keyword dictionary `kw` built by `main` becomes an association
  list from field names to typed values (`Val`);
* the regular-expression searches (`PREF_YEAR_PATTERN`, `YEAR_PATTERN`,
  `ROMANPAGESPATTERNra`/`ar`, `DOCTYPE_PATTERN`) become explicit
  left-to-right scanners over character lists;
* the per-record body of `main` becomes the pure function
  `processRecord`, returning `none` exactly where the Python raises
  (the `assert` on `glottolog_ref_id` and uncaught `int(...)` failures);
* helpers imported from repository modules that are not part of the
  staged sources (`update_relationship`, `compute_pages`,
  `roman_to_int`) are modelled from the specification, as marked in
  their doc comments; the bibtex `unescape` function and the
  provider/macroarea/doctype lookup maps are kept abstract as
  parameters of the engine.
-/

namespace Glottolog

set_option maxRecDepth 1000000

/-- A typed value stored in the `kw` dictionary or on a `Ref` entity:
Python strings and ints as they occur in `import_refs.main`. -/
inductive Val where
  | s (v : String)
  | i (n : Int)
deriving DecidableEq, Repr

/-- Python truthiness of a value (`if value:`): the empty string and the
integer 0 are falsy. -/
def Val.truthy : Val → Bool
  | .s v => v ≠ ""
  | .i n => n ≠ 0

/-- Python `'%s' % v` for an attribute value; `None` prints as "None". -/
def valToStr : Option Val → String
  | none => "None"
  | some (.s v) => v
  | some (.i n) => toString n

/-- A string-to-string dictionary (a record's fields, a jsondata
side-bag), keys unique by construction. -/
abbrev Bag := List (String × String)

/-- A dictionary from field names to typed values (the `kw` dict, an
entity's scalar columns). -/
abbrev Fields := List (String × Val)

/-- Dictionary lookup (first matching key). -/
def lookupBag (b : Bag) (k : String) : Option String :=
  match b with
  | [] => none
  | (k', v) :: rest => if k' = k then some v else lookupBag rest k

/-- Dictionary assignment `b[k] = v`: replaces the value of an existing
key in place, otherwise appends the pair. -/
def bagSet (b : Bag) (k : String) (v : String) : Bag :=
  match b with
  | [] => [(k, v)]
  | (k', v') :: rest =>
      if k' = k then (k', v) :: rest else (k', v') :: bagSet rest k v

/-- Lookup in a typed-value dictionary. -/
def lookupF (f : Fields) (k : String) : Option Val :=
  match f with
  | [] => none
  | (k', v) :: rest => if k' = k then some v else lookupF rest k

/-- Dictionary assignment for typed-value dictionaries. -/
def setF (f : Fields) (k : String) (v : Val) : Fields :=
  match f with
  | [] => [(k, v)]
  | (k', v') :: rest =>
      if k' = k then (k', v) :: rest else (k', v') :: setF rest k v

/-- Python `d.update(kw)` over a copy, as `update_jsondata` does on the
external `clld` base entity: every pair of `src` is written into `b`. -/
def mergeBag (b : Bag) (src : Bag) : Bag :=
  src.foldl (fun acc kv => bagSet acc kv.1 kv.2) b

/-- Equality of two bags as Python dict equality: the same key-value
pairs regardless of insertion order (bags built by `bagSet` have unique
keys, for which this coincides with dict equality). -/
def bagEqv (a b : Bag) : Bool :=
  a.all (fun kv => kv ∈ b) && b.all (fun kv => kv ∈ a)

/-- The keys of a dictionary. -/
def keysOf (b : Bag) : List String := b.map (·.1)

/-- First-occurrence deduplication: the membership content of a Python
`set(...)` with a fixed enumeration order. -/
def dedupFirst (l : List String) : List String :=
  l.foldl (fun acc s => if s ∈ acc then acc else acc ++ [s]) []

/-- A character of the `\s` class (also what Python `str.strip()`
removes). -/
def wsChar (c : Char) : Bool :=
  c ∈ [' ', '\t', '\n', '\r', '\x0b', '\x0c']

/-- Python `text.strip()`: whitespace removed from both ends. Kept as a
structural recursion over the characters so that concrete runs reduce
inside the kernel. -/
def pyStrip (s : String) : String :=
  String.mk (((s.data.dropWhile wsChar).reverse.dropWhile wsChar).reverse)

/-- Python `text.split(sep)` for a one-character separator: splitting
the empty text yields one empty piece, like `''.split(',') == ['']`. -/
def splitOnChar (sep : Char) : List Char → List (List Char)
  | [] => [[]]
  | c :: rest =>
      if c = sep then [] :: splitOnChar sep rest
      else
        match splitOnChar sep rest with
        | [] => [[c]]
        | p :: ps => (c :: p) :: ps

/-- Python `int(text)` on stripped text: an optional sign followed by at
least one decimal digit; anything else raises `ValueError` (`none`). -/
def parseInt (s : String) : Option Int :=
  let t := pyStrip s
  let core : List Char → Option (Bool × List Char) :=
    fun cs =>
      match cs with
      | [] => none
      | c :: rest =>
          if c = '-' then some (true, rest)
          else if c = '+' then some (false, rest)
          else some (false, c :: rest)
  match core t.data with
  | none => none
  | some (neg, digits) =>
      if digits = [] ∨ ¬ digits.all Char.isDigit then none
      else
        let n : Nat := digits.foldl (fun acc c => acc * 10 + (c.toNat - 48)) 0
        some (if neg then -(n : Int) else (n : Int))

/-! ### Year extraction

`PREF_YEAR_PATTERN = re.compile('\[(?P<year>(1|2)[0-9]{3})(\-[0-9]+)?\]')`
`YEAR_PATTERN = re.compile('(?P<year>(1|2)[0-9]{3})')`

`re.search` finds the leftmost position at which the pattern matches;
both patterns are embedded as positional matchers plus a left-to-right
scan. -/

/-- Numeric value of four decimal digit characters. -/
def fourDigits (a b c d : Char) : Nat :=
  (a.toNat - 48) * 1000 + (b.toNat - 48) * 100 + (c.toNat - 48) * 10 + (d.toNat - 48)

/-- Does `PREF_YEAR_PATTERN` match starting exactly at this suffix?
`[`, a digit 1 or 2, three digits, an optional `-` followed by one or
more digits, then `]`; yields the year group. -/
def prefYearAt (cs : List Char) : Option Nat :=
  match cs with
  | '[' :: d1 :: d2 :: d3 :: d4 :: rest =>
      if (d1 = '1' ∨ d1 = '2') ∧ d2.isDigit ∧ d3.isDigit ∧ d4.isDigit then
        match rest with
        | ']' :: _ => some (fourDigits d1 d2 d3 d4)
        | '-' :: rest' =>
            let digits := rest'.takeWhile Char.isDigit
            let after := rest'.dropWhile Char.isDigit
            match after with
            | ']' :: _ => if digits = [] then none else some (fourDigits d1 d2 d3 d4)
            | _ => none
        | _ => none
      else none
  | _ => none

/-- `re.search` as a scan: the positional matcher `f` tried at every
suffix from the left, the first hit winning. -/
def searchScan (f : List Char → Option Nat) : List Char → Option Nat
  | [] => none
  | c :: rest =>
      match f (c :: rest) with
      | some y => some y
      | none => searchScan f rest

/-- `PREF_YEAR_PATTERN.search`: leftmost match. -/
def prefYearSearch : List Char → Option Nat :=
  searchScan prefYearAt

/-- Does `YEAR_PATTERN` match starting exactly at this suffix? A digit
1 or 2 followed by three digits. -/
def yearAt (cs : List Char) : Option Nat :=
  match cs with
  | d1 :: d2 :: d3 :: d4 :: _ =>
      if (d1 = '1' ∨ d1 = '2') ∧ d2.isDigit ∧ d3.isDigit ∧ d4.isDigit then
        some (fourDigits d1 d2 d3 d4)
      else none
  | _ => none

/-- `YEAR_PATTERN.search`: leftmost match. -/
def yearSearch : List Char → Option Nat :=
  searchScan yearAt

/-- Lines 267-277 of `import_refs.main`: the year in brackets is
preferred over the first 4-digit number. -/
def extractYearInt (raw : String) : Option Nat :=
  match prefYearSearch raw.data with
  | some y => some y
  | none => yearSearch raw.data

/-- The specification's reading of the fallback, "the first STANDALONE
4-digit number starting with 1 or 2": a 4-digit match at position `i`
that is neither preceded nor followed by another digit. Stated from the
spec's words for comparison with `YEAR_PATTERN`, which has no such
boundary condition. -/
def standaloneYearAt (cs : List Char) (i : Nat) : Bool :=
  (yearAt (cs.drop i)).isSome &&
    (decide (i = 0) || !(cs.getD (i - 1) ' ').isDigit) &&
    (decide (cs.length ≤ i + 4) || !(cs.getD (i + 4) ' ').isDigit)

/-! ### Roman + Arabic page patterns

`ROMAN = '(?P<roman>[ivxlcdmIVXLCDM]+)'`, `ARABIC = '(?P<arabic>[0-9]+)'`,
`ROMANPAGESPATTERNra = roman\+arabic`, `ROMANPAGESPATTERNar = arabic\+roman`. -/

/-- A character of the `ROMAN` class. -/
def romanChar (c : Char) : Bool :=
  c ∈ ['i', 'v', 'x', 'l', 'c', 'd', 'm', 'I', 'V', 'X', 'L', 'C', 'D', 'M']

/-- Numeric value of a digit run. -/
def natOfDigits (ds : List Char) : Nat :=
  ds.foldl (fun acc c => acc * 10 + (c.toNat - 48)) 0

/-- `ROMANPAGESPATTERNra` matched at exactly this suffix: a maximal
nonempty Roman run, `+`, a nonempty digit run. Yields (roman, arabic). -/
def romanRaAt (cs : List Char) : Option (String × Nat) :=
  let rrun := cs.takeWhile romanChar
  if rrun = [] then none
  else
    match cs.dropWhile romanChar with
    | '+' :: tl =>
        let drun := tl.takeWhile Char.isDigit
        if drun = [] then none else some (String.mk rrun, natOfDigits drun)
    | _ => none

/-- `ROMANPAGESPATTERNar` matched at exactly this suffix: digits, `+`,
Roman run. Yields (roman, arabic) like the named groups. -/
def romanArAt (cs : List Char) : Option (String × Nat) :=
  let drun := cs.takeWhile Char.isDigit
  if drun = [] then none
  else
    match cs.dropWhile Char.isDigit with
    | '+' :: tl =>
        let rrun := tl.takeWhile romanChar
        if rrun = [] then none else some (String.mk rrun, natOfDigits drun)
    | _ => none

/-- `re.search` scan for `ROMANPAGESPATTERNra`. -/
def romanRaSearch : List Char → Option (String × Nat)
  | [] => none
  | c :: rest =>
      match romanRaAt (c :: rest) with
      | some r => some r
      | none => romanRaSearch rest

/-- `re.search` scan for `ROMANPAGESPATTERNar`. -/
def romanArSearch : List Char → Option (String × Nat)
  | [] => none
  | c :: rest =>
      match romanArAt (c :: rest) with
      | some r => some r
      | none => romanArSearch rest

/-- Value of one Roman numeral letter, case-insensitively. -/
def romanVal (c : Char) : Int :=
  if c = 'i' ∨ c = 'I' then 1
  else if c = 'v' ∨ c = 'V' then 5
  else if c = 'x' ∨ c = 'X' then 10
  else if c = 'l' ∨ c = 'L' then 50
  else if c = 'c' ∨ c = 'C' then 100
  else if c = 'd' ∨ c = 'D' then 500
  else if c = 'm' ∨ c = 'M' then 1000
  else 0

/-- Modelled from the spec: `roman_to_int` from `glottolog3/lib/util.py`
is imported by the import script but its module is not among the staged
sources. Per the spec, "Roman numeral conversion must support standard
subtractive notation (I,V,X,L,C,D,M) case-insensitively": a letter whose
value is smaller than its successor's is subtracted, otherwise added. -/
def roman_to_int (s : String) : Int :=
  let rec go : List Char → Int
    | [] => 0
    | [c] => romanVal c
    | c1 :: c2 :: rest =>
        if romanVal c1 < romanVal c2 then go (c2 :: rest) - romanVal c1
        else romanVal c1 + go (c2 :: rest)
  go s.data

/-- Modelled from the spec: `compute_pages` from
`glottolog3/scripts/util.py` is imported by the import script but its
module is not among the staged sources. Per the spec it is "a dedicated
page-range computation ... to derive start, end, and total from
arbitrary textual page ranges (e.g. \"12-34\")", all three results
independently optional: a numeric range "a-b" yields (a, b, b-a+1), a
single number "n" yields (n, n, 1), anything else yields no values. -/
def compute_pages (s : String) : Option Int × Option Int × Option Int :=
  let t := pyStrip s
  match parseInt t with
  | some n => (some n, some n, some 1)
  | none =>
      match splitOnChar '-' t.data with
      | [a, b] =>
          match parseInt (String.mk a), parseInt (String.mk b) with
          | some x, some y => (some x, some y, some (y - x + 1))
          | _, _ => (none, none, none)
      | _ => (none, none, none)

/-! ### The doctype tag grammar

`DOCTYPE_PATTERN = re.compile('(?P<name>[a-z\_]+)\s*(\((?P<comment>[^\)]+)\))?\s*(\;|$)')`
scanned with `finditer`. -/

/-- A character of the name class `[a-z_]`. -/
def doctypeNameChar (c : Char) : Bool :=
  ('a' ≤ c ∧ c ≤ 'z') ∨ c = '_'

/-- `DOCTYPE_PATTERN` matched starting exactly at this suffix: the name
run, optional whitespace, an optional parenthesized nonempty comment,
optional whitespace, then `;` or the end of the string. Yields the name
group and the suffix after the match. -/
def doctypeMatchAt (cs : List Char) : Option (String × List Char) :=
  let nrun := cs.takeWhile doctypeNameChar
  if nrun = [] then none
  else
    let r1 := cs.dropWhile doctypeNameChar
    let r2 := r1.dropWhile wsChar
    let r3? : Option (List Char) :=
      match r2 with
      | '(' :: tl =>
          let inner := tl.takeWhile (· ≠ ')')
          match tl.dropWhile (· ≠ ')') with
          | ')' :: tl2 => if inner = [] then none else some tl2
          | _ => none
      | _ => some r2
    match r3? with
    | none => none
    | some r3 =>
        match r3.dropWhile wsChar with
        | [] => some (String.mk nrun, [])
        | ';' :: tl => some (String.mk nrun, tl)
        | _ => none

/-- `finditer` over the doctype grammar: repeatedly the leftmost match,
resuming after each match's end (fuel bounds the scan; every match or
failed position consumes at least one character). -/
def doctypeFindIter : Nat → List Char → List String
  | 0, _ => []
  | _ + 1, [] => []
  | fuel + 1, c :: rest =>
      match doctypeMatchAt (c :: rest) with
      | some (name, after) => name :: doctypeFindIter fuel after
      | none => doctypeFindIter fuel rest

/-- The `name` groups of all `DOCTYPE_PATTERN.finditer` matches. -/
def doctypeNames (s : String) : List String :=
  doctypeFindIter (s.data.length + 1) s.data

/-! ### The record parser: `FIELD_MAP`, `CONVERTER` and the `kw` dict -/

/-- The static field-mapping table of `import_refs.py` (source key to canonical target field, the empty string meaning "unmapped: store in the side-bag"). -/
def FIELD_MAP : List (String × String) := [
  ("abstract", ""),
  ("added", ""),
  ("additional_items", ""),
  ("address", "address"),
  ("adress", "address"),
  ("adviser", ""),
  ("aiatsis_callnumber", ""),
  ("aiatsis_code", ""),
  ("aiatsis_reference_language", ""),
  ("alnumcodes", ""),
  ("anlanote", ""),
  ("anlclanguage", ""),
  ("anlctype", ""),
  ("annote", ""),
  ("asjp_name", ""),
  ("audiofile", ""),
  ("author", "author"),
  ("author_note", ""),
  ("author_statement", ""),
  ("booktitle", "booktitle"),
  ("booktitle_english", ""),
  ("bwonote", ""),
  ("call_number", ""),
  ("citation", ""),
  ("class_loc", ""),
  ("collection", ""),
  ("comments", ""),
  ("contains_also", ""),
  ("contributed", ""),
  ("copies", ""),
  ("copyright", ""),
  ("country", ""),
  ("coverage", ""),
  ("crossref", ""),
  ("de", ""),
  ("degree", ""),
  ("digital_formats", ""),
  ("document_type", ""),
  ("doi", ""),
  ("domain", ""),
  ("edition", "edition"),
  ("edition_note", ""),
  ("editor", "editor"),
  ("english_title", ""),
  ("extra_hash", ""),
  ("extrahash", ""),
  ("file", ""),
  ("fn", ""),
  ("fnnote", ""),
  ("folder", ""),
  ("format", ""),
  ("german_subject_headings", ""),
  ("glottolog_ref_id", ""),
  ("guldemann_location", ""),
  ("hhnote", ""),
  ("hhtype", ""),
  ("howpublished", ""),
  ("id", ""),
  ("inlg", "inlg"),
  ("institution", ""),
  ("isbn", ""),
  ("issn", ""),
  ("issue", ""),
  ("jfmnote", ""),
  ("journal", "journal"),
  ("key", ""),
  ("keywords", ""),
  ("langcode", ""),
  ("langnote", ""),
  ("languoidbase_ids", ""),
  ("lapollanote", ""),
  ("last_changed", ""),
  ("lccn", ""),
  ("lcode", ""),
  ("lgcde", ""),
  ("lgcode", ""),
  ("lgcoe", ""),
  ("lgcosw", ""),
  ("lgfamily", ""),
  ("macro_area", ""),
  ("modified", ""),
  ("month", ""),
  ("mpi_eva_library_shelf", ""),
  ("mpifn", ""),
  ("no_inventaris", ""),
  ("note", "note"),
  ("notes", "note"),
  ("number", "number"),
  ("numberofpages", ""),
  ("numner", "number"),
  ("oages", "pages"),
  ("oldhhfn", ""),
  ("oldhhfnnote", ""),
  ("omnote", ""),
  ("other_editions", ""),
  ("otomanguean_heading", ""),
  ("owner", ""),
  ("ozbib_id", "ozbib_id"),
  ("ozbibnote", ""),
  ("ozbibreftype", ""),
  ("paged", "pages"),
  ("pages", "pages"),
  ("pagex", "pages"),
  ("permission", ""),
  ("pgaes", "pages"),
  ("phdthesis", ""),
  ("prepages", ""),
  ("publisher", "publisher"),
  ("pubnote", ""),
  ("rating", ""),
  ("read", ""),
  ("relatedresource", ""),
  ("replication", ""),
  ("reprint", ""),
  ("restrictions", ""),
  ("review", ""),
  ("school", "school"),
  ("seanote", ""),
  ("seifarttype", ""),
  ("series", "series"),
  ("series_english", ""),
  ("shelf_location", ""),
  ("shorttitle", ""),
  ("sil_id", ""),
  ("source", ""),
  ("src", ""),
  ("srctrickle", ""),
  ("stampeann", ""),
  ("stampedesc", ""),
  ("status", ""),
  ("subject", "subject"),
  ("subject_headings", "subject_headings"),
  ("subsistence_note", ""),
  ("superseded", ""),
  ("thanks", ""),
  ("thesistype", ""),
  ("timestamp", ""),
  ("title", "title"),
  ("title_english", ""),
  ("titlealt", ""),
  ("typ", ""),
  ("umi_id", ""),
  ("url", "url"),
  ("vernacular_title", ""),
  ("volume", "volume"),
  ("volumr", "volume"),
  ("weball_lgs", ""),
  ("year", "year"),
  ("yeartitle", "")
]


/-- `CONVERTER = {'ozbib_id': int}` applied as
`CONVERTER.get(source, lambda x: x)(value)`; an unparseable int raises
(`none`), which aborts the run. -/
def applyConverter (source : String) (value : String) : Option Val :=
  if source = "ozbib_id" then (parseInt value).map Val.i else some (Val.s value)

/-- An incoming bibliographic record: its bibtex key (`rec.id`), its
genre (`rec.genre`) and its fields. -/
structure RecE where
  id : String
  genre : String
  fields : List (String × String)
deriving DecidableEq, Repr

/-- `rec.get(k)`. -/
def RecE.get (r : RecE) (k : String) : Option String :=
  lookupBag r.fields k

/-- `rec.get(k)` when present and truthy. -/
def RecE.getT (r : RecE) (k : String) : Option String :=
  match lookupBag r.fields k with
  | some v => if v = "" then none else some v
  | none => none

/-- Lines 244-258 of `import_refs.main`: the initial `kw` dict (`pk`,
`bibtex_type`, `id` and the `jsondata` side-bag seeded with the bibtex
key) and the `FIELD_MAP` routing loop: every populated source field is
unescaped and written to its canonical target (through `CONVERTER`) or
into the side-bag. `none` when the `ozbib_id` converter raises.
`unesc` is the (external) `unescape` function, kept abstract. -/
def bkStep (unesc : String → String) (rec : RecE) (acc : Fields × Bag)
    (st : String × String) : Option (Fields × Bag) :=
  match rec.getT st.1 with
  | none => some acc
  | some value0 =>
      if st.2 ≠ "" then
        match applyConverter st.1 (unesc value0) with
        | none => none
        | some v => some (setF acc.1 st.2 v, acc.2)
      else
        some (acc.1, bagSet acc.2 st.1 (unesc value0))

/-- The full routing loop as a fold of `bkStep` over `FIELD_MAP`. -/
def buildKw (unesc : String → String) (rec : RecE) (id_ : Int) :
    Option (Fields × Bag) :=
  FIELD_MAP.foldlM (bkStep unesc rec)
    ([("pk", Val.i id_), ("bibtex_type", Val.s rec.genre),
      ("id", Val.s (toString id_))],
     [("bibtexkey", rec.id)])

/-! ### Derived numeric fields (lines 260-302 of `import_refs.main`) -/

/-- Lines 261-265: a populated, numeric `numberofpages` field sets
`pages_int` (an unparseable value is caught and ignored). -/
def numberofpagesStep (rec : RecE) (kw : Fields) : Fields :=
  match rec.getT "numberofpages" with
  | none => kw
  | some v =>
      match parseInt (pyStrip v) with
      | some n => setF kw "pages_int" (Val.i n)
      | none => kw

/-- Lines 267-277: a truthy `year` text sets `year_int`, preferring the
bracketed year over the first 4-digit number. -/
def yearStep (kw : Fields) : Fields :=
  match lookupF kw "year" with
  | some (Val.s y) =>
      if y = "" then kw
      else
        match extractYearInt y with
        | some n => setF kw "year_int" (Val.i (n : Int))
        | none => kw
  | _ => kw

/-- The two halves of Python `text.split(':', 1)`, both stripped;
`none` when the text holds no colon. -/
def splitFirstColon (p : String) : Option (String × String) :=
  match splitOnChar ':' p.data with
  | [] => none
  | [_] => none
  | a :: rest =>
      some (pyStrip (String.mk a),
        pyStrip (String.intercalate ":" (rest.map String.mk)))

/-- Lines 279-284: a truthy `publisher` text containing a colon is split
once on the first colon into stripped (address, publisher); both are
assigned only when no `address` is present yet or the present one equals
the computed address. -/
def publisherStep (kw : Fields) : Fields :=
  match lookupF kw "publisher" with
  | some (Val.s p) =>
      if p = "" then kw
      else
        match splitFirstColon p with
        | none => kw
        | some (address, publisher) =>
            let assign :=
              match lookupF kw "address" with
              | none => true
              | some a => a = Val.s address
            if assign then
              setF (setF kw "address" (Val.s address)) "publisher" (Val.s publisher)
            else kw
  | _ => kw

/-- Lines 286-302: a truthy `pages` text is searched for the Roman+Arabic
patterns (`ra` first, then `ar`); a match sets `pages_int` to
roman-to-int(roman) + arabic only when `pages_int` is not yet a key;
otherwise `compute_pages` derives start, end and number, each assigned
when present — the number unconditionally. -/
def pagesStep (kw : Fields) : Fields :=
  match lookupF kw "pages" with
  | some (Val.s p) =>
      if p = "" then kw
      else
        let m :=
          match romanRaSearch p.data with
          | some r => some r
          | none => romanArSearch p.data
        match m with
        | some (roman, arabic) =>
            if (lookupF kw "pages_int").isNone then
              setF kw "pages_int" (Val.i (roman_to_int roman + (arabic : Int)))
            else kw
        | none =>
            let (start, stop, number) := compute_pages p
            let kw := match start with
              | some s => setF kw "startpage_int" (Val.i s)
              | none => kw
            let kw := match stop with
              | some e => setF kw "endpage_int" (Val.i e)
              | none => kw
            match number with
            | some n => setF kw "pages_int" (Val.i n)
            | none => kw
  | _ => kw

/-- All four derived-field steps in source order. -/
def addDerived (rec : RecE) (kw : Fields) : Fields :=
  pagesStep (publisherStep (yearStep (numberofpagesStep rec kw)))

/-! ### Entities, the `Ref` model and relationship reconciliation -/

/-- A lookup entity (Provider, Macroarea, Doctype): a primary key and
the string id used for the denormalized summary strings. -/
structure Entity where
  pk : Nat
  id : String
deriving DecidableEq, Repr

/-- The mutable state of a `Ref` entity as `import_refs.main` touches
it: scalar columns (accessed via `getattr`/`setattr`), the jsondata
side-bag, the display name, the three relationship collections and the
two denormalized summary strings. -/
structure RefE where
  fields : Fields
  jsondata : Bag
  name : String
  macroareas : List Entity
  providers : List Entity
  doctypes : List Entity
  doctypes_str : Option String
  providers_str : Option String
deriving DecidableEq, Repr

/-- Modelled from the spec: `update_relationship` from
`glottolog3/scripts/util.py` is imported by the import script but its
module is not among the staged sources. Per the spec (§4.3) it computes
"which `desired` members are not already in `existing` (appended ...)
and whether any `existing` member is absent from `desired`
(informational flag — in the reference semantics, removal does not
occur automatically: existing relationship instances are never deleted
by an update, only new ones are added)". One fold step: append a member
not yet present, recording it among the additions. -/
def urStep (p : List Entity × List Entity) (e : Entity) :
    List Entity × List Entity :=
  if e ∈ p.1 then p else (p.1 ++ [e], p.2 ++ [e])

/-- Modelled from the spec (see `urStep`): the reconciliation itself,
returning the updated collection, the list of additions and the
removed flag. -/
def update_relationship (col new : List Entity) :
    List Entity × List Entity × Bool :=
  let r := new.foldl urStep (col, [])
  (r.1, r.2, col.any (fun e => ¬ e ∈ new))

/-- The local `append` closure of `import_refs.main` (lines 331-334):
appends `obj` when it is not yet a member and reports whether it did. -/
def appendObj (attr : List Entity) (obj : Entity) : List Entity × Bool :=
  if obj ∈ attr then (attr, false) else (attr ++ [obj], true)

/-- The provider loop (lines 345-347): `append` each desired member,
or-accumulating the change flag. -/
def apStep (p : List Entity × Bool) (o : Entity) : List Entity × Bool :=
  let q := appendObj p.1 o
  (q.1, p.2 || q.2)

/-- The provider loop as a fold of `apStep` over the desired members. -/
def appendAll (attr : List Entity) (objs : List Entity) :
    List Entity × Bool :=
  objs.foldl apStep (attr, false)

/-- `b.get(k, '')`. -/
def bagGetD (b : Bag) (k : String) : String :=
  (lookupBag b k).getD ""

/-- `set(filter(None, [s.strip() for s in raw.split(',')]))`: the comma
pieces, stripped, empties dropped, deduplicated (first occurrence kept
as the enumeration order). -/
def commaNames (raw : String) : List String :=
  dedupFirst
    (((splitOnChar ',' raw.data).map (fun cs => pyStrip (String.mk cs))).filter
      (fun s => s ≠ ""))

/-- Lines 358-359: a 3-character `lgcode` in the parsed side-bag is
rewritten to `[lgcode]`. In `main` this mutates `kw['jsondata']` after
its last read (the remaining consumers are commented out), so it never
reaches the stored entity; it is embedded for completeness. -/
def bracketLgcode (jd : Bag) : Bag :=
  let code := bagGetD jd "lgcode"
  if code.length = 3 then bagSet jd "lgcode" ("[" ++ code ++ "]") else jd

/-! ### The update loop (lines 304-326) -/

/-- One per-field change-log record: field, old, new (stringified). -/
abbrev ChangeLog := List (String × String × String)

/-- Line 325-326, executed at the end of every non-`pk` iteration of the
update loop: a truthy title is mirrored into the description column. -/
def mirrorTitle (ref : RefE) : RefE :=
  match lookupF ref.fields "title" with
  | some v =>
      if v.truthy then { ref with fields := setF ref.fields "description" v }
      else ref
  | none => ref

/-- One key of the update loop's iteration over `kw`: a scalar entry or
the `jsondata` entry. -/
inductive KwItem where
  | scalar (k : String) (v : Val)
  | jsonbag
deriving DecidableEq, Repr

/-- One iteration of the update loop: `pk` is skipped; a differing
scalar value is written, logged as (field, old, new) and flips
`changed`; a differing side-bag is merged without flipping `changed`;
every non-`pk` iteration ends by mirroring the title. -/
def updStep (jd : Bag) (st : RefE × Bool × ChangeLog) (item : KwItem) :
    RefE × Bool × ChangeLog :=
  let ref := st.1
  let changed := st.2.1
  let log := st.2.2
  match item with
  | .scalar k v =>
      if k = "pk" then st
      else
        let v0 := lookupF ref.fields k
        if some v ≠ v0 then
          (mirrorTitle { ref with fields := setF ref.fields k v }, true,
            log ++ [(k, valToStr v0, valToStr (some v))])
        else (mirrorTitle ref, changed, log)
  | .jsonbag =>
      let ref :=
        if bagEqv jd ref.jsondata then ref
        else { ref with jsondata := mergeBag ref.jsondata jd }
      (mirrorTitle ref, changed, log)

/-- The update loop over all keys of `kw` (CPython 2 enumerates the
dict in an unspecified order; the loop's result is order-independent —
each key is compared and written at most once, the side-bag merge
touches no scalar, and the last non-`pk` iteration's title mirror fixes
the description — so the scalars are enumerated in insertion order with
the `jsondata` key last). -/
def updateLoop (kwF : Fields) (jd : Bag) (ref : RefE) :
    RefE × Bool × ChangeLog :=
  (kwF.map (fun kv => KwItem.scalar kv.1 kv.2) ++ [KwItem.jsonbag]).foldl
    (updStep jd) (ref, false, [])

/-- `kw.get(k, default)` stringified as `'%s' % v`. -/
def getStrD (kwF : Fields) (k : String) (default : String) : String :=
  match lookupF kwF k with
  | some v => valToStr (some v)
  | none => default

/-- Lines 327-329, the create path: a fresh `Ref` named
"{author-or-na} {year-or-nd}" carrying all parsed fields and the
side-bag; its relationship collections start empty and its description
is not set. -/
def createRef (kwF : Fields) (jd : Bag) : RefE :=
  { fields := kwF
    jsondata := jd
    name := getStrD kwF "author" "na" ++ " " ++ getStrD kwF "year" "nd"
    macroareas := []
    providers := []
    doctypes := []
    doctypes_str := none
    providers_str := none }

/-! ### The per-record merge engine -/

/-- The run mode (`--mode`, default `insert`). -/
inductive Mode where
  | insert
  | update
deriving DecidableEq, Repr

/-- The catalog store: references keyed by primary key. -/
abbrev RefStore := List (Int × RefE)

/-- `DBSession.query(Source).get(id_)`. -/
def storeGet (store : RefStore) (k : Int) : Option RefE :=
  match store with
  | [] => none
  | (k', r) :: rest => if k' = k then some r else storeGet rest k

/-- Persisting a reference under its key (in-place mutation of a loaded
entity, or `DBSession.add` of a fresh one). -/
def storeSet (store : RefStore) (k : Int) (r : RefE) : RefStore :=
  match store with
  | [] => [(k, r)]
  | (k', r') :: rest =>
      if k' = k then (k', r) :: rest else (k', r') :: storeSet rest k r

/-- The run's fixed collaborators: the external `unescape` function and
the three lookup maps (`provider_map` composed with `slug`,
`macroarea_map`, `doctype_map`), loaded once per run and read-only. -/
structure RunCfg where
  unesc : String → String
  provMap : String → Entity
  macroMap : String → Entity
  doctMap : String → Entity

/-- What processing one record does to the run's state: the store
afterwards, the skip- and changed-counter increments, the record's
`changed` flag and its change-log entry (the reference's string id with
the per-field (field, old, new) list), present only when the update
loop logged a difference. -/
structure Outcome where
  store : RefStore
  skippedInc : Nat
  countInc : Nat
  changed : Bool
  changesEntry : Option (String × ChangeLog)
deriving DecidableEq, Repr

/-- The desired macroarea entities of a parsed side-bag (line 338-339). -/
def desiredMacroareas (cfg : RunCfg) (jd : Bag) : List Entity :=
  (commaNames (bagGetD jd "macro_area")).map cfg.macroMap

/-- The desired provider entities of a parsed side-bag (line 345-346). -/
def desiredProviders (cfg : RunCfg) (jd : Bag) : List Entity :=
  (commaNames (bagGetD jd "src")).map cfg.provMap

/-- The desired doctype entities of a parsed side-bag (lines 350-352):
the `name` groups of the `hhtype` grammar scan, not deduplicated. -/
def desiredDoctypes (cfg : RunCfg) (jd : Bag) : List Entity :=
  (doctypeNames (bagGetD jd "hhtype")).map cfg.doctMap

/-- `', '.join(o.id for o in l)`. -/
def joinIds (l : List Entity) : String :=
  String.intercalate ", " (l.map (fun e => e.id))

/-- Lines 304-329: the merge stage — the update loop against an
existing reference, or the create path. -/
def mergeStage (kwF : Fields) (jd : Bag) (r? : Option RefE) :
    RefE × Bool × ChangeLog :=
  match r? with
  | some ref0 => updateLoop kwF jd ref0
  | none => (createRef kwF jd, true, [])

/-- Lines 336-356: the relationship phase — macroareas and doctypes via
`update_relationship`, providers via the `append` loop — returning the
reference and the or-accumulated changed flag. -/
def relPhase (cfg : RunCfg) (jd : Bag) (ref1 : RefE) (changed1 : Bool) :
    RefE × Bool :=
  let rel1 := update_relationship ref1.macroareas (desiredMacroareas cfg jd)
  let ref2 := { ref1 with macroareas := rel1.1 }
  let changed2 := changed1 || (rel1.2.1 ≠ []) || rel1.2.2
  let pr := appendAll ref2.providers (desiredProviders cfg jd)
  let ref3 := { ref2 with providers := pr.1 }
  let changed3 := changed2 || pr.2
  let rel2 := update_relationship ref3.doctypes (desiredDoctypes cfg jd)
  let ref4 := { ref3 with doctypes := rel2.1 }
  (ref4, changed3 || (rel2.2.1 ≠ []) || rel2.2.2)

/-- Lines 304-386 after parsing: merge stage, relationship phase, and
the finalize step — when anything changed, the changed counter bumps
and the two summary strings are recomputed; the change-log entry exists
only when the update loop logged a scalar difference. (Line 358-359
rewrites `kw['jsondata']` after its last read — `bracketLgcode jd` is
dead there, as here.) -/
def applyRecord (cfg : RunCfg) (store : RefStore) (id_ : Int)
    (kwF : Fields) (jd : Bag) : Outcome :=
  let ms := mergeStage kwF jd (storeGet store id_)
  let rc := relPhase cfg jd ms.1 ms.2.1
  let ref5 :=
    if rc.2 then
      { rc.1 with doctypes_str := some (joinIds rc.1.doctypes)
                  providers_str := some (joinIds rc.1.providers) }
    else rc.1
  { store := storeSet store id_ ref5
    skippedInc := 0
    countInc := if rc.2 then 1 else 0
    changed := rc.2
    changesEntry :=
      if (storeGet store id_).isSome ∧ ms.2.2 ≠ [] then
        some (toString id_, ms.2.2)
      else none }

/-- The body of `main`'s per-record loop (lines 229-386), as a pure
function of the run's fixed collaborators, the mode, the start-of-run
known ids, the store and the record. `none` is a fatal error: the
failed `assert rec.get('glottolog_ref_id')` or an uncaught `int(...)`.

A record with fewer than 6 keys only bumps the skip counter. In insert
mode an already-known id is passed over. Otherwise the record is parsed
(`buildKw`, then the derived-field steps) and handed to `applyRecord`. -/
def processRecord (cfg : RunCfg) (mode : Mode) (knownIds : List Int)
    (store : RefStore) (rec : RecE) : Option Outcome :=
  if rec.fields.length < 6 then
    some { store := store, skippedInc := 1, countInc := 0,
           changed := false, changesEntry := none }
  else
    match rec.getT "glottolog_ref_id" with
    | none => none
    | some gid =>
        match parseInt gid with
        | none => none
        | some id_ =>
            if mode ≠ .update ∧ id_ ∈ knownIds then
              some { store := store, skippedInc := 0, countInc := 0,
                     changed := false, changesEntry := none }
            else
              match buildKw cfg.unesc rec id_ with
              | none => none
              | some (kw0, jd) =>
                  some (applyRecord cfg store id_ (addDerived rec kw0) jd)

/-- The run's accumulated state over the record stream. -/
structure RunState where
  store : RefStore
  count : Nat
  skipped : Nat
  changes : List (String × ChangeLog)
deriving Repr

/-- `changes[ref.id][k] = (old, new)`: per-field assignment into one
reference's change-log dict. -/
def logSet (l : ChangeLog) (e : String × String × String) : ChangeLog :=
  match l with
  | [] => [e]
  | x :: rest => if x.1 = e.1 then e :: rest else x :: logSet rest e

/-- Merging one record's change-log entry into the run's aggregate
change log. -/
def mergeChanges (cs : List (String × ChangeLog)) (rid : String)
    (log : ChangeLog) : List (String × ChangeLog) :=
  match cs with
  | [] => [(rid, log)]
  | (rid', l') :: rest =>
      if rid' = rid then (rid', log.foldl logSet l') :: rest
      else (rid', l') :: mergeChanges rest rid log

/-- One iteration of `main`'s record loop, threading the run state. -/
def runStep (cfg : RunCfg) (mode : Mode) (knownIds : List Int)
    (st : RunState) (rec : RecE) : Option RunState :=
  match processRecord cfg mode knownIds st.store rec with
  | none => none
  | some out =>
      some { store := out.store
             count := st.count + out.countInc
             skipped := st.skipped + out.skippedInc
             changes :=
               match out.changesEntry with
               | none => st.changes
               | some (rid, log) => mergeChanges st.changes rid log }

/-- The whole record loop: `known_ids` is the snapshot of the store's
keys taken before the first record. -/
def runAll (cfg : RunCfg) (mode : Mode) (store0 : RefStore)
    (recs : List RecE) : Option RunState :=
  recs.foldlM (runStep cfg mode (store0.map (fun kv => kv.1)))
    { store := store0, count := 0, skipped := 0, changes := [] }

/-! ### The languoid classification model (`glottolog3/models.py`) -/

/-- A ValueSet attached to a languoid: its parameter id keys it in
`valueset_dict`; `description` and `references` are what
`classification` and `_crefs` read. -/
structure VS where
  param : String
  description : Option String
  references : List Nat
deriving DecidableEq, Repr

/-- A languoid as far as the subclassification-reference lookup reads
it: its valuesets and its nullable `father`. The inductive structure
makes the father chain finite and acyclic, the model invariant the
source relies on. -/
inductive Lgd where
  | root (valuesets : List (String × VS))
  | child (valuesets : List (String × VS)) (father : Lgd)
deriving DecidableEq, Repr

/-- The languoid's valuesets. -/
def Lgd.valuesets : Lgd → List (String × VS)
  | .root vss => vss
  | .child vss _ => vss

/-- The languoid's nullable `father`. -/
def Lgd.father : Lgd → Option Lgd
  | .root _ => none
  | .child _ f => some f

/-- `valueset_dict`: `{vs.parameter.id: vs}` — for a duplicated
parameter id the dict keeps the last value, hence lookup from the
right. -/
def vsDict (vss : List (String × VS)) (t : String) : Option VS :=
  match vss with
  | [] => none
  | (k, v) :: rest =>
      match vsDict rest t with
      | some r => some r
      | none => if k = t then some v else none

/-- `Languoid.classification(type_)` for `type_ ∈ {fc, sc}`. -/
def Lgd.classification (l : Lgd) (t : String) : Option VS :=
  vsDict l.valuesets t

/-- `Languoid._crefs(t)`: the references of that classification
valueset, or `[]` when there is none. -/
def Lgd.crefsOf (l : Lgd) (t : String) : List Nat :=
  match l.classification t with
  | some c => c.references
  | none => []

/-- `Languoid.screfs` (models.py lines 256-269): the node's own
subclassification references; when that list is empty, the father's
`screfs`; empty at a fatherless root with none of its own. -/
def Lgd.screfs : Lgd → List Nat
  | .root vss => Lgd.crefsOf (.root vss) "sc"
  | .child vss f =>
      let res := Lgd.crefsOf (.child vss f) "sc"
      if res.isEmpty then f.screfs else res

/-- The keys of a typed-value dictionary. -/
def keysF (f : Fields) : List String := f.map (·.1)


/-- C9's property stated from the claim's words, for comparison with
`buildKw`: the side-bag holds exactly the populated source fields that
have no canonical target in the field map, each as its unescaped raw
text. -/
def sideBagClaimSpec (unesc : String → String) (rec : RecE) (bag : Bag) : Prop :=
  ∀ k v, (k, v) ∈ bag ↔
    ∃ raw, lookupBag rec.fields k = some raw ∧ raw ≠ "" ∧ v = unesc raw ∧
      ∀ t, (k, t) ∈ FIELD_MAP → t = ""

/-- A concrete 6-field record whose fields include one key (`zzz_custom`)
that `FIELD_MAP` does not know at all. -/
def rec9 : RecE :=
  { id := "xkey", genre := "book"
    fields := [("glottolog_ref_id", "7"), ("author", "A"), ("year", "1999"),
               ("title", "T"), ("zzz_custom", "v"), ("note", "N")] }

/-- The side-bag `buildKw` computes for `rec9`. -/
def jd9 : Bag := ((buildKw id rec9 7).getD ([], [])).2


/-- A default outcome, used only to unwrap options in the concrete
scenarios below. -/
def dfltOut : Outcome :=
  { store := [], skippedInc := 0, countInc := 0, changed := false,
    changesEntry := none }

/-- A concrete run configuration: identity unescape, lookup maps
assigning one entity per name. -/
def cfgX : RunCfg :=
  { unesc := id, provMap := fun s => ⟨1, s⟩, macroMap := fun s => ⟨2, s⟩,
    doctMap := fun s => ⟨3, s⟩ }

/-- A concrete 6-field record with a macro-area and an hhtype tag. -/
def recC2 : RecE :=
  { id := "smith1987", genre := "book"
    fields := [("glottolog_ref_id", "42"), ("author", "Smith"),
               ("year", "1987"), ("title", "A Grammar"),
               ("macro_area", "Africa"), ("hhtype", "grammar")] }

/-- The parsed `kw` dict of `recC2`. -/
def kw0X : Fields := ((buildKw id recC2 42).getD ([], [])).1

/-- The parsed side-bag of `recC2`. -/
def jdX : Bag := ((buildKw id recC2 42).getD ([], [])).2

/-- The reference created by processing `recC2` against an empty store. -/
def refBase : RefE :=
  (storeGet ((processRecord cfgX Mode.update [] [] recC2).getD dfltOut).store 42).getD
    (createRef [] [])

/-- `refBase` with an extra macroarea the record does not mention. -/
def refYC2 : RefE :=
  { refBase with macroareas := refBase.macroareas ++ [⟨9, "Eurasia"⟩] }

/-- First run of `recC2` against the store holding `refYC2`. -/
def outC2b : Outcome :=
  (processRecord cfgX Mode.update [] [(42, refYC2)] recC2).getD dfltOut

/-- Second run of `recC2` against the state the first run produced. -/
def outC2c : Outcome :=
  (processRecord cfgX Mode.update [] outC2b.store recC2).getD dfltOut

/-- First run of `recC2` against the empty store (the create path). -/
def outW1 : Outcome :=
  (processRecord cfgX Mode.update [] [] recC2).getD dfltOut

/-- Second run of `recC2` against the state after the create. -/
def outW2 : Outcome :=
  (processRecord cfgX Mode.update [] outW1.store recC2).getD dfltOut

/-- A concrete 6-field record naming two providers in its `src` tag. -/
def recC10 : RecE :=
  { id := "jones2000", genre := "book"
    fields := [("glottolog_ref_id", "43"), ("author", "Jones"),
               ("year", "2000"), ("title", "T"), ("note", "N"),
               ("src", "provA, provB")] }

/-- The parsed `kw` dict of `recC10`. -/
def kw0Q : Fields := ((buildKw id recC10 43).getD ([], [])).1

/-- The parsed side-bag of `recC10`. -/
def jdQ : Bag := ((buildKw id recC10 43).getD ([], [])).2

/-- The reference created by processing `recC10` against an empty
store. -/
def refQbase : RefE :=
  (storeGet ((processRecord cfgX Mode.update [] [] recC10).getD dfltOut).store 43).getD
    (createRef [] [])

/-- `refQbase` as it would stand had the record previously named only
provider A: same scalar fields, side-bag `src` of "provA", provider
list {A}. -/
def refQ10 : RefE :=
  { refQbase with jsondata := bagSet refQbase.jsondata "src" "provA"
                  providers := [⟨1, "provA"⟩]
                  providers_str := some "provA" }

/-- Run of `recC10` against the store holding `refQ10`: the only
difference between record and entity sits in the side-bag. -/
def outC10 : Outcome :=
  (processRecord cfgX Mode.update [] [(43, refQ10)] recC10).getD dfltOut

/-- The keys of the scalar items of an update-loop iteration list. -/
def itemKeys (items : List KwItem) : List String :=
  items.filterMap (fun it => match it with
    | .scalar k _ => some k
    | .jsonbag => none)

/-! ## Theorems

Dictionary infrastructure lemmas, then the per-claim theorems. -/

@[simp] theorem keysF_nil : keysF [] = [] := rfl

@[simp] theorem keysF_cons (kv : String × Val) (rest : Fields) :
    keysF (kv :: rest) = kv.1 :: keysF rest := rfl

theorem lookupF_setF_self (f : Fields) (k : String) (v : Val) :
    lookupF (setF f k v) k = some v := by
  induction f with
  | nil => simp [setF, lookupF]
  | cons kv rest ih =>
      by_cases h : kv.1 = k
      · simp [setF, lookupF, h]
      · simp [setF, lookupF, h, ih]

theorem lookupF_setF_ne (f : Fields) (k' k : String) (v : Val) (h : k' ≠ k) :
    lookupF (setF f k' v) k = lookupF f k := by
  induction f with
  | nil => simp [setF, lookupF, h]
  | cons kv rest ih =>
      by_cases h2 : kv.1 = k'
      · subst h2
        simp [setF, lookupF, h]
      · simp [setF, lookupF, h2, ih]

theorem keysF_setF_mem (f : Fields) (k : String) (v : Val) :
    k ∈ keysF f → keysF (setF f k v) = keysF f := by
  induction f with
  | nil => intro hk; simp at hk
  | cons kv rest ih =>
      intro hk
      by_cases h : kv.1 = k
      · simp [setF, h]
      · have hk' : k ∈ keysF rest := by
          rw [keysF_cons] at hk
          rcases List.mem_cons.mp hk with h1 | h1
          · exact absurd h1.symm h
          · exact h1
        simp [setF, h, ih hk']

theorem keysF_setF_fresh (f : Fields) (k : String) (v : Val) :
    k ∉ keysF f → keysF (setF f k v) = keysF f ++ [k] := by
  induction f with
  | nil => intro _; simp [setF]
  | cons kv rest ih =>
      intro hk
      rw [keysF_cons] at hk
      have h : kv.1 ≠ k := fun he => hk (he ▸ List.mem_cons_self _ _)
      have hk' : k ∉ keysF rest := fun hm => hk (List.mem_cons_of_mem _ hm)
      simp [setF, h, ih hk']

theorem nodup_keysF_setF (f : Fields) (k : String) (v : Val)
    (h : (keysF f).Nodup) : (keysF (setF f k v)).Nodup := by
  by_cases hk : k ∈ keysF f
  · rw [keysF_setF_mem f k v hk]; exact h
  · rw [keysF_setF_fresh f k v hk]
    simpa using List.Nodup.append h (by simp) (by simpa using hk)

theorem mem_keysF_setF (f : Fields) (k' k : String) (v : Val) :
    k ∈ keysF (setF f k' v) ↔ k ∈ keysF f ∨ k = k' := by
  by_cases hk : k' ∈ keysF f
  · rw [keysF_setF_mem f k' v hk]
    constructor
    · exact fun h => Or.inl h
    · rintro (h | rfl)
      · exact h
      · exact hk
  · rw [keysF_setF_fresh f k' v hk]
    simp [or_comm, eq_comm]

theorem lookupF_eq_of_mem_nodup (f : Fields) (k : String) (v : Val)
    (hnd : (keysF f).Nodup) (hm : (k, v) ∈ f) : lookupF f k = some v := by
  induction f with
  | nil => simp at hm
  | cons kv rest ih =>
      rw [keysF_cons] at hnd
      have hnd' := List.nodup_cons.mp hnd
      rcases List.mem_cons.mp hm with he | hm'
      · rw [show kv = (k, v) from he.symm]
        simp [lookupF]
      · have hk : k ∈ keysF rest := List.mem_map.mpr ⟨(k, v), hm', rfl⟩
        have hne : kv.1 ≠ k := fun hq => hnd'.1 (hq ▸ hk)
        simp only [lookupF, hne, if_false]
        exact ih hnd'.2 hm'

theorem mem_of_lookupF (f : Fields) (k : String) (v : Val) :
    lookupF f k = some v → (k, v) ∈ f := by
  induction f with
  | nil => intro h; simp [lookupF] at h
  | cons kv rest ih =>
      intro h
      by_cases he : kv.1 = k
      · simp only [lookupF, he, if_true, Option.some.injEq] at h
        exact List.mem_cons.mpr (Or.inl (by cases kv; simp_all))
      · simp only [lookupF, he, if_false] at h
        exact List.mem_cons.mpr (Or.inr (ih h))

@[simp] theorem keysOf_nil : keysOf [] = [] := rfl

@[simp] theorem keysOf_cons (kv : String × String) (rest : Bag) :
    keysOf (kv :: rest) = kv.1 :: keysOf rest := rfl

theorem lookupBag_bagSet_self (b : Bag) (k v : String) :
    lookupBag (bagSet b k v) k = some v := by
  induction b with
  | nil => simp [bagSet, lookupBag]
  | cons kv rest ih =>
      by_cases h : kv.1 = k
      · simp [bagSet, lookupBag, h]
      · simp [bagSet, lookupBag, h, ih]

theorem lookupBag_bagSet_ne (b : Bag) (k' k v : String) (h : k' ≠ k) :
    lookupBag (bagSet b k' v) k = lookupBag b k := by
  induction b with
  | nil => simp [bagSet, lookupBag, h]
  | cons kv rest ih =>
      by_cases h2 : kv.1 = k'
      · subst h2
        simp [bagSet, lookupBag, h]
      · simp [bagSet, lookupBag, h2, ih]

theorem bagSet_fresh (b : Bag) (k v : String) :
    k ∉ keysOf b → bagSet b k v = b ++ [(k, v)] := by
  induction b with
  | nil => intro _; simp [bagSet]
  | cons kv rest ih =>
      intro hk
      rw [keysOf_cons] at hk
      have h : kv.1 ≠ k := fun he => hk (he ▸ List.mem_cons_self _ _)
      have hk' : k ∉ keysOf rest := fun hm => hk (List.mem_cons_of_mem _ hm)
      simp [bagSet, h, ih hk']

theorem keysOf_bagSet_mem (b : Bag) (k v : String) :
    k ∈ keysOf b → keysOf (bagSet b k v) = keysOf b := by
  induction b with
  | nil => intro hk; simp at hk
  | cons kv rest ih =>
      intro hk
      by_cases h : kv.1 = k
      · simp [bagSet, h]
      · have hk' : k ∈ keysOf rest := by
          rw [keysOf_cons] at hk
          rcases List.mem_cons.mp hk with h1 | h1
          · exact absurd h1.symm h
          · exact h1
        simp [bagSet, h, ih hk']

theorem nodup_keysOf_bagSet (b : Bag) (k v : String)
    (h : (keysOf b).Nodup) : (keysOf (bagSet b k v)).Nodup := by
  by_cases hk : k ∈ keysOf b
  · rw [keysOf_bagSet_mem b k v hk]; exact h
  · rw [bagSet_fresh b k v hk]
    simp only [keysOf, List.map_append, List.map_cons, List.map_nil]
    simpa [keysOf] using List.Nodup.append h (by simp) (by simpa [keysOf] using hk)

theorem mem_keysOf_bagSet (b : Bag) (k' k v : String) :
    k ∈ keysOf (bagSet b k' v) ↔ k ∈ keysOf b ∨ k = k' := by
  by_cases hk : k' ∈ keysOf b
  · rw [keysOf_bagSet_mem b k' v hk]
    constructor
    · exact fun h => Or.inl h
    · rintro (h | rfl)
      · exact h
      · exact hk
  · rw [bagSet_fresh b k' v hk]
    simp only [keysOf, List.map_append, List.map_cons, List.map_nil]
    simp [keysOf, or_comm, eq_comm]

theorem lookupBag_eq_of_mem_nodup (b : Bag) (k v : String)
    (hnd : (keysOf b).Nodup) (hm : (k, v) ∈ b) : lookupBag b k = some v := by
  induction b with
  | nil => simp at hm
  | cons kv rest ih =>
      rw [keysOf_cons] at hnd
      have hnd' := List.nodup_cons.mp hnd
      rcases List.mem_cons.mp hm with he | hm'
      · rw [show kv = (k, v) from he.symm]
        simp [lookupBag]
      · have hk : k ∈ keysOf rest := List.mem_map.mpr ⟨(k, v), hm', rfl⟩
        have hne : kv.1 ≠ k := fun hq => hnd'.1 (hq ▸ hk)
        simp only [lookupBag, hne, if_false]
        exact ih hnd'.2 hm'

theorem mem_of_lookupBag (b : Bag) (k v : String) :
    lookupBag b k = some v → (k, v) ∈ b := by
  induction b with
  | nil => intro h; simp [lookupBag] at h
  | cons kv rest ih =>
      intro h
      by_cases he : kv.1 = k
      · simp only [lookupBag, he, if_true, Option.some.injEq] at h
        exact List.mem_cons.mpr (Or.inl (by cases kv; simp_all))
      · simp only [lookupBag, he, if_false] at h
        exact List.mem_cons.mpr (Or.inr (ih h))

theorem storeGet_storeSet_self (s : RefStore) (k : Int) (r : RefE) :
    storeGet (storeSet s k r) k = some r := by
  induction s with
  | nil => simp [storeSet, storeGet]
  | cons kv rest ih =>
      by_cases h : kv.1 = k
      · simp [storeSet, storeGet, h]
      · simp [storeSet, storeGet, h, ih]

theorem lookupBag_mergeBag (src : Bag) (b : Bag) (k : String)
    (hnd : (keysOf src).Nodup) :
    lookupBag (mergeBag b src) k =
      match lookupBag src k with
      | some v => some v
      | none => lookupBag b k := by
  induction src generalizing b with
  | nil => simp [mergeBag, lookupBag]
  | cons kv rest ih =>
      rw [keysOf_cons] at hnd
      have hnd' := List.nodup_cons.mp hnd
      have hstep : mergeBag b (kv :: rest) = mergeBag (bagSet b kv.1 kv.2) rest := by
        simp [mergeBag]
      rw [hstep, ih _ hnd'.2]
      by_cases he : kv.1 = k
      · subst he
        have hnone : lookupBag rest kv.1 = none := by
          cases hh : lookupBag rest kv.1 with
          | none => rfl
          | some v =>
              exact absurd (List.mem_map.mpr ⟨(kv.1, v), mem_of_lookupBag _ _ _ hh, rfl⟩) hnd'.1
        simp [hnone, lookupBag, lookupBag_bagSet_self]
      · simp [lookupBag, he, lookupBag_bagSet_ne b kv.1 k kv.2 he]

/-! ## Claim theorems -/

theorem urFold_spec (l : List Entity) (c a : List Entity) :
    ∃ t, l.foldl urStep (c, a) = (c ++ t, a ++ t) ∧
      (∀ e ∈ t, e ∈ l ∧ e ∉ c) ∧ (∀ e ∈ l, e ∈ c ++ t) := by
  induction l generalizing c a with
  | nil => exact ⟨[], by simp⟩
  | cons e l ih =>
      by_cases he : e ∈ c
      · have hstep : urStep (c, a) e = (c, a) := by simp [urStep, he]
        obtain ⟨t, h1, h2, h3⟩ := ih c a
        refine ⟨t, ?_, ?_, ?_⟩
        · simpa [hstep] using h1
        · exact fun x hx => ⟨List.mem_cons_of_mem _ (h2 x hx).1, (h2 x hx).2⟩
        · intro x hx
          rcases List.mem_cons.mp hx with rfl | hx'
          · exact List.mem_append_left _ he
          · exact h3 x hx'
      · have hstep : urStep (c, a) e = (c ++ [e], a ++ [e]) := by simp [urStep, he]
        obtain ⟨t, h1, h2, h3⟩ := ih (c ++ [e]) (a ++ [e])
        refine ⟨e :: t, ?_, ?_, ?_⟩
        · simpa [hstep, List.append_assoc] using h1
        · intro x hx
          rcases List.mem_cons.mp hx with rfl | hx'
          · exact ⟨List.mem_cons_self _ _, he⟩
          · refine ⟨List.mem_cons_of_mem _ (h2 x hx').1, fun hc => (h2 x hx').2 (List.mem_append_left _ hc)⟩
        · intro x hx
          rcases List.mem_cons.mp hx with rfl | hx'
          · simp
          · have := h3 x hx'
            simpa [List.append_assoc] using this

theorem apFold_spec (l : List Entity) (c : List Entity) (b : Bool) :
    ∃ t, l.foldl apStep (c, b) = (c ++ t, b || !t.isEmpty) ∧
      (∀ e ∈ t, e ∈ l ∧ e ∉ c) ∧ (∀ e ∈ l, e ∈ c ++ t) := by
  induction l generalizing c b with
  | nil => exact ⟨[], by simp⟩
  | cons e l ih =>
      by_cases he : e ∈ c
      · have hstep : apStep (c, b) e = (c, b) := by simp [apStep, appendObj, he]
        obtain ⟨t, h1, h2, h3⟩ := ih c b
        refine ⟨t, by simpa [hstep] using h1, ?_, ?_⟩
        · exact fun x hx => ⟨List.mem_cons_of_mem _ (h2 x hx).1, (h2 x hx).2⟩
        · intro x hx
          rcases List.mem_cons.mp hx with rfl | hx'
          · exact List.mem_append_left _ he
          · exact h3 x hx'
      · have hstep : apStep (c, b) e = (c ++ [e], true) := by
          simp [apStep, appendObj, he]
        obtain ⟨t, h1, h2, h3⟩ := ih (c ++ [e]) true
        refine ⟨e :: t, ?_, ?_, ?_⟩
        · rw [List.foldl_cons, hstep, h1]
          simp [List.append_assoc]
        · intro x hx
          rcases List.mem_cons.mp hx with rfl | hx'
          · exact ⟨List.mem_cons_self _ _, he⟩
          · refine ⟨List.mem_cons_of_mem _ (h2 x hx').1, fun hc => (h2 x hx').2 (List.mem_append_left _ hc)⟩
        · intro x hx
          rcases List.mem_cons.mp hx with rfl | hx'
          · simp
          · have := h3 x hx'
            simpa [List.append_assoc] using this

/-- C1: reconciliation of every many-to-many collection (macro-areas and
doctypes via `update_relationship`, providers via the `append` loop)
only appends desired members not already present and never removes an
existing member; concretely, providers {A, B} with desired {B, C}
become {A, B, C}. -/
theorem C1_additive_reconciliation :
    (∀ col new : List Entity,
      ∃ t, (update_relationship col new).1 = col ++ t ∧
        (update_relationship col new).2.1 = t ∧
        ∀ e ∈ t, e ∈ new ∧ e ∉ col) ∧
    (∀ attr objs : List Entity,
      ∃ t, (appendAll attr objs).1 = attr ++ t ∧
        ∀ e ∈ t, e ∈ objs ∧ e ∉ attr) ∧
    appendAll [⟨1, "A"⟩, ⟨2, "B"⟩] [⟨2, "B"⟩, ⟨3, "C"⟩]
      = ([⟨1, "A"⟩, ⟨2, "B"⟩, ⟨3, "C"⟩], true) ∧
    (update_relationship [⟨1, "A"⟩, ⟨2, "B"⟩] [⟨2, "B"⟩, ⟨3, "C"⟩]).1
      = [⟨1, "A"⟩, ⟨2, "B"⟩, ⟨3, "C"⟩] := by
  refine ⟨?_, ?_, by decide, by decide⟩
  · intro col new
    obtain ⟨t, h1, h2, h3⟩ := urFold_spec new col []
    exact ⟨t, by simp [update_relationship, h1], by simp [update_relationship, h1], h2⟩
  · intro attr objs
    obtain ⟨t, h1, h2, h3⟩ := apFold_spec objs attr false
    exact ⟨t, by simp [appendAll, h1], h2⟩

/-- Witness for C1 at providers {A, B}, desired {B, C}: the single
addition C is a desired member that was not already present. -/
theorem C1_additive_reconciliation_witness :
    (⟨3, "C"⟩ : Entity) ∈ [(⟨2, "B"⟩ : Entity), ⟨3, "C"⟩] ∧
      (⟨3, "C"⟩ : Entity) ∉ [(⟨1, "A"⟩ : Entity), ⟨2, "B"⟩] := by
  obtain ⟨t, h1, h2, h3⟩ :=
    C1_additive_reconciliation.1 [⟨1, "A"⟩, ⟨2, "B"⟩] [⟨2, "B"⟩, ⟨3, "C"⟩]
  exact h3 ⟨3, "C"⟩ (by rw [← h2]; decide)

/-- C6: a record with fewer than 6 keys is skipped: the store is
untouched, the skip counter is incremented exactly once, the changed
counter and change log stay as they were, and processing yields a
normal (non-fatal) outcome. -/
theorem C6_sparse_record_skipped (cfg : RunCfg) (mode : Mode)
    (knownIds : List Int) (store : RefStore) (rec : RecE) (st : RunState)
    (h : rec.fields.length < 6) :
    processRecord cfg mode knownIds store rec =
      some { store := store, skippedInc := 1, countInc := 0,
             changed := false, changesEntry := none } ∧
    runStep cfg mode knownIds st rec =
      some { store := st.store, count := st.count,
             skipped := st.skipped + 1, changes := st.changes } := by
  constructor
  · simp [processRecord, h]
  · simp [runStep, processRecord, h]

/-- Witness for C6: a concrete 2-field record against a concrete run
state. -/
theorem C6_sparse_record_skipped_witness :
    runStep ⟨id, fun s => ⟨1, s⟩, fun s => ⟨2, s⟩, fun s => ⟨3, s⟩⟩ Mode.insert []
      { store := [], count := 4, skipped := 7, changes := [] }
      ⟨"k", "book", [("glottolog_ref_id", "5"), ("title", "T")]⟩ =
      some { store := [], count := 4, skipped := 8, changes := [] } :=
  (C6_sparse_record_skipped _ _ _ []
    ⟨"k", "book", [("glottolog_ref_id", "5"), ("title", "T")]⟩ _ (by decide)).2

/-- C8: subclassification-reference lookup returns the node's own
references when non-empty, otherwise the father's lookup, and the empty
list at a fatherless root with none of its own; family F with refs {1}
and child C with none yields {1} for C. -/
theorem C8_subclassification_inheritance :
    (∀ l : Lgd, l.crefsOf "sc" ≠ [] → l.screfs = l.crefsOf "sc") ∧
    (∀ vss f, Lgd.crefsOf (.child vss f) "sc" = [] →
      (Lgd.child vss f).screfs = f.screfs) ∧
    (∀ vss, Lgd.crefsOf (.root vss) "sc" = [] → (Lgd.root vss).screfs = []) ∧
    (Lgd.child [] (Lgd.root [("sc", ⟨"sc", some "justification", [1]⟩)])).screfs = [1] := by
  refine ⟨?_, ?_, ?_, by decide⟩
  · intro l hl
    cases l with
    | root vss => simp [Lgd.screfs]
    | child vss f =>
        simp only [Lgd.screfs]
        rw [if_neg (by simpa [List.isEmpty_iff] using hl)]
  · intro vss f h
    simp only [Lgd.screfs]
    rw [if_pos (by simpa [List.isEmpty_iff] using h)]
  · intro vss h
    simpa [Lgd.screfs] using h

/-- Witness for C8: a child with its own references keeps them; a child
without any inherits the root's. -/
theorem C8_subclassification_inheritance_witness :
    (Lgd.child [("sc", ⟨"sc", some "d", [5]⟩)]
      (Lgd.root [("sc", ⟨"sc", some "d", [1]⟩)])).screfs = [5] ∧
    (Lgd.child [] (Lgd.root [("sc", ⟨"sc", some "d", [1]⟩)])).screfs
      = (Lgd.root [("sc", ⟨"sc", some "d", [1]⟩)]).screfs := by
  constructor
  · exact C8_subclassification_inheritance.1 _ (by decide)
  · exact C8_subclassification_inheritance.2.1 _ _ (by decide)

theorem numberofpagesStep_preserves (rec : RecE) (kw : Fields) (k : String)
    (h : k ≠ "pages_int") :
    lookupF (numberofpagesStep rec kw) k = lookupF kw k := by
  unfold numberofpagesStep
  cases rec.getT "numberofpages" with
  | none => rfl
  | some v =>
      simp only
      cases parseInt (pyStrip v) with
      | none => rfl
      | some n =>
          simp only
          exact lookupF_setF_ne kw "pages_int" k _ (fun he => h he.symm)

theorem yearStep_preserves (kw : Fields) (k : String) (h : k ≠ "year_int") :
    lookupF (yearStep kw) k = lookupF kw k := by
  unfold yearStep
  cases hy : lookupF kw "year" with
  | none => rfl
  | some v =>
      cases v with
      | i n => rfl
      | s y =>
          simp only
          by_cases he : y = ""
          · simp [he]
          · simp only [he, if_false]
            cases extractYearInt y with
            | none => rfl
            | some n =>
                simp only
                exact lookupF_setF_ne kw "year_int" k _ (fun q => h q.symm)

theorem publisherStep_preserves (kw : Fields) (k : String)
    (h1 : k ≠ "address") (h2 : k ≠ "publisher") :
    lookupF (publisherStep kw) k = lookupF kw k := by
  unfold publisherStep
  cases hp : lookupF kw "publisher" with
  | none => rfl
  | some v =>
      cases v with
      | i n => rfl
      | s p =>
          simp only
          by_cases he : p = ""
          · simp [he]
          · simp only [he, if_false]
            cases hsp : splitFirstColon p with
            | none => rfl
            | some ap =>
                simp only
                cases hadr : lookupF kw "address" with
                | none =>
                    simp only [if_true]
                    rw [lookupF_setF_ne _ "publisher" k _ (fun q => h2 q.symm),
                        lookupF_setF_ne _ "address" k _ (fun q => h1 q.symm)]
                | some av =>
                    by_cases hv : av = Val.s ap.1
                    · simp only [hv, decide_True, if_true]
                      rw [lookupF_setF_ne _ "publisher" k _ (fun q => h2 q.symm),
                          lookupF_setF_ne _ "address" k _ (fun q => h1 q.symm)]
                    · simp only [hv, decide_False, if_false]
                      split
                      · rw [lookupF_setF_ne _ "publisher" k _ (fun q => h2 q.symm),
                            lookupF_setF_ne _ "address" k _ (fun q => h1 q.symm)]
                      · rfl


/-- C3 (amended): a populated numeric `numberofpages` always sets the
derived total and takes precedence over a Roman+Arabic `pages` total,
but a total derived by the page-range computation on the `pages` field
overwrites it. -/
theorem C3_numberofpages_precedence (rec : RecE) (kw : Fields) (s : String)
    (n : Int) (hs : rec.getT "numberofpages" = some s)
    (hn : parseInt (pyStrip s) = some n) :
    lookupF (numberofpagesStep rec kw) "pages_int" = some (Val.i n) ∧
    (lookupF kw "pages" = none →
      lookupF (addDerived rec kw) "pages_int" = some (Val.i n)) ∧
    (∀ p, lookupF kw "pages" = some (Val.s p) → p ≠ "" →
      ((romanRaSearch p.data).isSome ∨ (romanArSearch p.data).isSome) →
      lookupF (addDerived rec kw) "pages_int" = some (Val.i n)) ∧
    (∀ p m, lookupF kw "pages" = some (Val.s p) → p ≠ "" →
      romanRaSearch p.data = none → romanArSearch p.data = none →
      (compute_pages p).2.2 = some m →
      lookupF (addDerived rec kw) "pages_int" = some (Val.i m)) := by
  have hset : lookupF (numberofpagesStep rec kw) "pages_int" = some (Val.i n) := by
    unfold numberofpagesStep
    rw [hs]
    simp only
    rw [hn]
    exact lookupF_setF_self kw "pages_int" (Val.i n)
  have hkw2 : lookupF (publisherStep (yearStep (numberofpagesStep rec kw))) "pages_int"
      = some (Val.i n) := by
    rw [publisherStep_preserves _ _ (by decide) (by decide),
        yearStep_preserves _ _ (by decide), hset]
  have hpg : lookupF (publisherStep (yearStep (numberofpagesStep rec kw))) "pages"
      = lookupF kw "pages" := by
    rw [publisherStep_preserves _ _ (by decide) (by decide),
        yearStep_preserves _ _ (by decide),
        numberofpagesStep_preserves _ _ _ (by decide)]
  refine ⟨hset, ?_, ?_, ?_⟩
  · intro hnone
    show lookupF (pagesStep _) "pages_int" = _
    unfold pagesStep
    rw [hpg, hnone]
    exact hkw2
  · intro p hp hpne hm
    show lookupF (pagesStep _) "pages_int" = _
    unfold pagesStep
    rw [hpg, hp]
    simp only [hpne, if_false]
    rcases hra : romanRaSearch p.data with _ | r
    · rcases har : romanArSearch p.data with _ | r2
      · rw [hra, har] at hm
        simp at hm
      · simp only [hra, har]
        simp only [hkw2, Option.isNone_some, Bool.false_eq_true, if_false]
    · simp only [hra]
      simp only [hkw2, Option.isNone_some, Bool.false_eq_true, if_false]
  · intro p m hp hpne hra har hcp
    show lookupF (pagesStep _) "pages_int" = _
    unfold pagesStep
    rw [hpg, hp]
    simp only [hpne, if_false, hra, har]
    rcases hc : compute_pages p with ⟨st, ⟨en, num⟩⟩
    try rw [hc]
    replace hcp : num = some m := by simpa [hc] using hcp
    subst hcp
    cases st <;> cases en <;>
      exact lookupF_setF_self _ "pages_int" (Val.i m)

/-- Counterexample to C3 as stated: `numberofpages = "100"` with
`pages = "12-34"`; the page-range computation's total 23 overwrites the
literal 100, so the derived total is 23, not 100. -/
theorem C3_numberofpages_precedence_counterexample :
    (⟨"x", "book", [("numberofpages", "100"), ("pages", "12-34")]⟩ :
        RecE).getT "numberofpages" = some "100" ∧
    parseInt "100" = some 100 ∧
    lookupF (addDerived ⟨"x", "book", [("numberofpages", "100"), ("pages", "12-34")]⟩
      [("pages", Val.s "12-34")]) "pages_int" = some (Val.i 23) ∧
    (23 : Int) ≠ 100 := by
  refine ⟨by decide, by decide, by decide, by decide⟩

/-- Witness for C3 (amended): `numberofpages = "100"` beats the
Roman+Arabic total of `pages = "xii+34"`. -/
theorem C3_numberofpages_precedence_witness :
    lookupF (addDerived ⟨"x", "book", [("numberofpages", "100"), ("pages", "xii+34")]⟩
      [("pages", Val.s "xii+34")]) "pages_int" = some (Val.i 100) := by
  exact (C3_numberofpages_precedence
    ⟨"x", "book", [("numberofpages", "100"), ("pages", "xii+34")]⟩
    [("pages", Val.s "xii+34")] "100" 100 (by decide) (by decide)).2.2.1
    "xii+34" (by decide) (by decide) (Or.inl (by decide))

/-- C4 (amended): a truthy publisher containing a colon is split once on
the first colon with both halves stripped; both (address, publisher)
are assigned when no address is present or the present address equals
the computed one; when a different address is already present, neither
field is modified — in particular the publisher part is not extracted. -/
theorem C4_publisher_address_split (kw : Fields) (p a pub : String)
    (hp : lookupF kw "publisher" = some (Val.s p)) (hpne : p ≠ "")
    (hsp : splitFirstColon p = some (a, pub)) :
    (lookupF kw "address" = none →
      lookupF (publisherStep kw) "address" = some (Val.s a) ∧
      lookupF (publisherStep kw) "publisher" = some (Val.s pub)) ∧
    (lookupF kw "address" = some (Val.s a) →
      lookupF (publisherStep kw) "address" = some (Val.s a) ∧
      lookupF (publisherStep kw) "publisher" = some (Val.s pub)) ∧
    (∀ av, lookupF kw "address" = some av → av ≠ Val.s a →
      publisherStep kw = kw) := by
  refine ⟨?_, ?_, ?_⟩
  · intro hnone
    unfold publisherStep
    rw [hp]
    simp only [hpne, if_false, hsp]
    rw [hnone]
    simp only [if_true]
    constructor
    · rw [lookupF_setF_ne _ "publisher" "address" _ (by decide)]
      exact lookupF_setF_self _ "address" _
    · exact lookupF_setF_self _ "publisher" _
  · intro hsame
    unfold publisherStep
    rw [hp]
    simp only [hpne, if_false, hsp]
    rw [hsame]
    simp only [decide_True, if_true]
    constructor
    · rw [lookupF_setF_ne _ "publisher" "address" _ (by decide)]
      exact lookupF_setF_self _ "address" _
    · exact lookupF_setF_self _ "publisher" _
  · intro av hav hne
    unfold publisherStep
    rw [hp]
    simp only [hpne, if_false, hsp]
    rw [hav]
    simp [hne]

/-- Counterexample to C4 as stated: publisher "Berlin: Mouton" with an
existing differing address "Leipzig": the existing address is kept but
the publisher is NOT rewritten to "Mouton" — nothing is assigned. -/
theorem C4_publisher_address_split_counterexample :
    splitFirstColon "Berlin: Mouton" = some ("Berlin", "Mouton") ∧
    publisherStep [("publisher", Val.s "Berlin: Mouton"), ("address", Val.s "Leipzig")]
      = [("publisher", Val.s "Berlin: Mouton"), ("address", Val.s "Leipzig")] ∧
    lookupF (publisherStep [("publisher", Val.s "Berlin: Mouton"),
      ("address", Val.s "Leipzig")]) "publisher" = some (Val.s "Berlin: Mouton") ∧
    Val.s "Berlin: Mouton" ≠ Val.s "Mouton" := by
  refine ⟨by decide, by decide, by decide, by decide⟩

/-- Witness for C4 (amended): "Berlin: Mouton" with no prior address is
split into address "Berlin" and publisher "Mouton". -/
theorem C4_publisher_address_split_witness :
    lookupF (publisherStep [("publisher", Val.s "Berlin: Mouton")]) "address"
      = some (Val.s "Berlin") ∧
    lookupF (publisherStep [("publisher", Val.s "Berlin: Mouton")]) "publisher"
      = some (Val.s "Mouton") := by
  exact (C4_publisher_address_split [("publisher", Val.s "Berlin: Mouton")]
    "Berlin: Mouton" "Berlin" "Mouton" (by decide) (by decide) (by decide)).1 (by decide)

theorem searchScan_some_iff (f : List Char → Option Nat) (hnil : f [] = none) :
    ∀ (cs : List Char) (y : Nat), searchScan f cs = some y ↔
      ∃ i, f (cs.drop i) = some y ∧ ∀ j < i, f (cs.drop j) = none := by
  intro cs
  induction cs with
  | nil =>
      intro y
      constructor
      · intro h
        simp [searchScan] at h
      · rintro ⟨i, h1, h2⟩
        rw [List.drop_nil] at h1
        rw [hnil] at h1
        exact absurd h1 (by simp)
  | cons c rest ih =>
      intro y
      constructor
      · intro h
        unfold searchScan at h
        cases hf : f (c :: rest) with
        | some y' =>
            rw [hf] at h
            simp only [Option.some.injEq] at h
            subst h
            exact ⟨0, by simpa using hf, by omega⟩
        | none =>
            rw [hf] at h
            simp only at h
            obtain ⟨i, h1, h2⟩ := (ih y).mp h
            refine ⟨i + 1, by simpa using h1, ?_⟩
            intro j hj
            cases j with
            | zero => simpa using hf
            | succ j' => simpa using h2 j' (by omega)
      · rintro ⟨i, h1, h2⟩
        unfold searchScan
        cases hf : f (c :: rest) with
        | some y' =>
            cases i with
            | zero =>
                rw [List.drop_zero] at h1
                rw [hf] at h1
                simpa using h1
            | succ i' =>
                have := h2 0 (by omega)
                rw [List.drop_zero] at this
                rw [hf] at this
                exact absurd this (by simp)
        | none =>
            cases i with
            | zero =>
                rw [List.drop_zero] at h1
                rw [hf] at h1
                exact absurd h1 (by simp)
            | succ i' =>
                simp only
                refine (ih y).mpr ⟨i', by simpa using h1, ?_⟩
                intro j hj
                have := h2 (j + 1) (by omega)
                simpa using this

/-- C7 (amended): year extraction returns the 4-digit number of the
leftmost bracketed-pattern match when one exists anywhere, otherwise
the 4-digit number, beginning with 1 or 2, of the leftmost
`YEAR_PATTERN` match — even when that number is embedded in a longer
digit run — otherwise `None`; "[1987]" gives 1987, "Published 1987,
reprinted 1999" gives 1987, "no year" gives None, and "31987" gives
1987. -/
theorem C7_year_extraction :
    (∀ (cs : List Char) (y : Nat), prefYearSearch cs = some y ↔
      ∃ i, prefYearAt (cs.drop i) = some y ∧
        ∀ j < i, prefYearAt (cs.drop j) = none) ∧
    (∀ (cs : List Char) (y : Nat), yearSearch cs = some y ↔
      ∃ i, yearAt (cs.drop i) = some y ∧ ∀ j < i, yearAt (cs.drop j) = none) ∧
    (∀ (s : String) (y : Nat), prefYearSearch s.data = some y →
      extractYearInt s = some y) ∧
    (∀ s : String, prefYearSearch s.data = none →
      extractYearInt s = yearSearch s.data) ∧
    extractYearInt "[1987]" = some 1987 ∧
    extractYearInt "Published 1987, reprinted 1999" = some 1987 ∧
    extractYearInt "no year" = none ∧
    extractYearInt "31987" = some 1987 := by
  refine ⟨searchScan_some_iff prefYearAt rfl, searchScan_some_iff yearAt rfl,
    ?_, ?_, by decide, by decide, by decide, by decide⟩
  · intro s y h
    unfold extractYearInt
    rw [h]
  · intro s h
    unfold extractYearInt
    rw [h]

/-- Witness for C7: the bracketed year of "[1987] x" is preferred. -/
theorem C7_year_extraction_witness :
    extractYearInt "[1987] x" = some 1987 :=
  C7_year_extraction.2.2.1 "[1987] x" 1987 (by decide)

/-- Counterexample to C7 as stated: "31987" holds no bracketed year and
no STANDALONE 4-digit number (its only 4-digit candidates sit inside a
5-digit run), so the claim demands None; the code extracts 1987. -/
theorem C7_year_extraction_counterexample :
    extractYearInt "31987" = some 1987 ∧
    prefYearSearch "31987".data = none ∧
    ((List.range "31987".data.length).all
      (fun i => !standaloneYearAt "31987".data i)) = true ∧
    some 1987 ≠ (none : Option Nat) := by
  refine ⟨by decide, by decide, by decide, by decide⟩

/-- Keys with unique first components determine their values. -/
theorem nodup_keys_unique {l : List (String × String)} {k a b : String}
    (hnd : (l.map (·.1)).Nodup) (ha : (k, a) ∈ l) (hb : (k, b) ∈ l) :
    a = b := by
  induction l with
  | nil => simp at ha
  | cons kv rest ih =>
      simp only [List.map_cons, List.nodup_cons] at hnd
      rcases List.mem_cons.mp ha with h1 | h1 <;>
        rcases List.mem_cons.mp hb with h2 | h2
      · have h3 := h1.trans h2.symm
        exact (Prod.ext_iff.mp h3).2
      · exact absurd (List.mem_map.mpr ⟨(k, b), h2, by rw [← h1]⟩) hnd.1
      · exact absurd (List.mem_map.mpr ⟨(k, a), h1, by rw [← h2]⟩) hnd.1
      · exact ih hnd.2 h1 h2

theorem bkFold_bag_mem (unesc : String → String) (rec : RecE)
    (l : List (String × String)) :
    ∀ (acc res : Fields × Bag),
      (l.map (·.1)).Nodup →
      (∀ s ∈ l.map (·.1), s ∉ keysOf acc.2) →
      l.foldlM (bkStep unesc rec) acc = some res →
      ∀ k v, (k, v) ∈ res.2 ↔ (k, v) ∈ acc.2 ∨
        ((k, "") ∈ l ∧ ∃ raw, rec.getT k = some raw ∧ v = unesc raw) := by
  induction l with
  | nil =>
      intro acc res _ _ hfold k v
      simp only [List.foldlM_nil, Option.pure_def, Option.some.injEq] at hfold
      subst hfold
      simp
  | cons st l ih =>
      intro acc res hnd hfresh hfold
      rcases st with ⟨s, t⟩
      simp only [List.map_cons, List.nodup_cons] at hnd
      simp only [List.foldlM_cons] at hfold
      cases hstep : bkStep unesc rec acc (s, t) with
      | none =>
          rw [hstep] at hfold
          exact Option.noConfusion hfold
      | some acc' =>
          rw [hstep] at hfold
          replace hfold : l.foldlM (bkStep unesc rec) acc' = some res := hfold
          unfold bkStep at hstep
          cases hget : rec.getT s with
          | none =>
              rw [hget] at hstep
              simp only [Option.some.injEq] at hstep
              subst hstep
              intro k v
              rw [ih acc res hnd.2 (fun x hx => hfresh x (List.mem_cons_of_mem _ hx)) hfold k v]
              constructor
              · rintro (h | ⟨h1, h2⟩)
                · exact Or.inl h
                · exact Or.inr ⟨List.mem_cons_of_mem _ h1, h2⟩
              · rintro (h | ⟨h1, ⟨raw, hraw, hv⟩⟩)
                · exact Or.inl h
                · rcases List.mem_cons.mp h1 with h2 | h2
                  · have hks : k = s := (Prod.ext_iff.mp h2).1
                    rw [hks, hget] at hraw
                    exact absurd hraw (by simp)
                  · exact Or.inr ⟨h2, ⟨raw, hraw, hv⟩⟩
          | some value0 =>
              rw [hget] at hstep
              dsimp only at hstep
              by_cases ht : t ≠ ""
              · rw [if_pos ht] at hstep
                cases hconv : applyConverter s (unesc value0) with
                | none =>
                    rw [hconv] at hstep
                    exact Option.noConfusion hstep
                | some v0 =>
                    rw [hconv] at hstep
                    simp only [Option.some.injEq] at hstep
                    subst hstep
                    intro k v
                    rw [ih (setF acc.1 t v0, acc.2) res hnd.2
                      (fun x hx => hfresh x (List.mem_cons_of_mem _ hx)) hfold k v]
                    constructor
                    · rintro (h | ⟨h1, h2⟩)
                      · exact Or.inl h
                      · exact Or.inr ⟨List.mem_cons_of_mem _ h1, h2⟩
                    · rintro (h | ⟨h1, h2⟩)
                      · exact Or.inl h
                      · rcases List.mem_cons.mp h1 with h2' | h2'
                        · exact absurd (Prod.ext_iff.mp h2').2.symm ht
                        · exact Or.inr ⟨h2', h2⟩
              · rw [if_neg ht] at hstep
                simp only [Option.some.injEq] at hstep
                push_neg at ht
                subst ht
                have hsfresh : s ∉ keysOf acc.2 := hfresh s (List.mem_cons_self _ _)
                have hacc' : acc'.2 = acc.2 ++ [(s, unesc value0)] := by
                  rw [← hstep]
                  exact bagSet_fresh acc.2 s (unesc value0) hsfresh
                have hfresh' : ∀ x ∈ l.map (·.1), x ∉ keysOf acc'.2 := by
                  intro x hx
                  rw [hacc']
                  simp only [keysOf, List.map_append, List.map_cons, List.map_nil,
                    List.mem_append, List.mem_cons, List.not_mem_nil]
                  rintro (hq | hq)
                  · exact hfresh x (List.mem_cons_of_mem _ hx) (by simpa [keysOf] using hq)
                  · rcases hq with hq | hq
                    · exact hnd.1 (hq ▸ hx)
                    · simp at hq
                intro k v
                rw [ih acc' res hnd.2 hfresh' hfold k v, hacc']
                constructor
                · rintro (h | ⟨h1, h2⟩)
                  · rcases List.mem_append.mp h with h3 | h3
                    · exact Or.inl h3
                    · rcases List.mem_cons.mp h3 with h4 | h4
                      · have hk : k = s := (Prod.ext_iff.mp h4).1
                        have hv : v = unesc value0 := (Prod.ext_iff.mp h4).2
                        subst hk
                        exact Or.inr ⟨List.mem_cons_self _ _,
                          ⟨value0, hget, hv⟩⟩
                      · simp at h4
                  · exact Or.inr ⟨List.mem_cons_of_mem _ h1, h2⟩
                · rintro (h | ⟨h1, ⟨raw, hraw, hv⟩⟩)
                  · exact Or.inl (List.mem_append_left _ h)
                  · rcases List.mem_cons.mp h1 with h2 | h2
                    · have hk : k = s := (Prod.ext_iff.mp h2).1
                      subst hk
                      rw [hget] at hraw
                      have : raw = value0 := by simpa using hraw.symm
                      subst this
                      subst hv
                      exact Or.inl (List.mem_append_right _ (List.mem_cons_self _ _))
                    · exact Or.inr ⟨h2, ⟨raw, hraw, hv⟩⟩


/-- C9 (amended): the side-bag of a processed record contains the
record's bibtex key under "bibtexkey" plus exactly those populated
source fields that `FIELD_MAP` maps to the empty target, each stored as
its unescaped raw text; it never contains a key the map sends to a
canonical (non-empty) target. Fields absent from `FIELD_MAP` altogether
are dropped, not stored. -/
theorem C9_side_bag (unesc : String → String) (rec : RecE) (id_ : Int)
    (kw0 : Fields) (jd : Bag) (h : buildKw unesc rec id_ = some (kw0, jd)) :
    (∀ k v, (k, v) ∈ jd ↔ (k = "bibtexkey" ∧ v = rec.id) ∨
      ((k, "") ∈ FIELD_MAP ∧ ∃ raw, rec.getT k = some raw ∧ v = unesc raw)) ∧
    (∀ k v t, (k, v) ∈ jd → (k, t) ∈ FIELD_MAP → t = "") := by
  have hnd : (FIELD_MAP.map (·.1)).Nodup := by decide
  have hfresh : ∀ s ∈ FIELD_MAP.map (·.1),
      s ∉ keysOf [("bibtexkey", rec.id)] := by
    intro s hs
    have hall : ∀ x ∈ FIELD_MAP.map (·.1), x ≠ "bibtexkey" := by decide
    simp [keysOf, hall s hs]
  have hmem := bkFold_bag_mem unesc rec FIELD_MAP
    ([("pk", Val.i id_), ("bibtex_type", Val.s rec.genre),
      ("id", Val.s (toString id_))], [("bibtexkey", rec.id)])
    (kw0, jd) hnd hfresh h
  have hfirst : ∀ k v, (k, v) ∈ jd ↔ (k = "bibtexkey" ∧ v = rec.id) ∨
      ((k, "") ∈ FIELD_MAP ∧ ∃ raw, rec.getT k = some raw ∧ v = unesc raw) := by
    intro k v
    rw [hmem k v]
    constructor
    · rintro (h1 | ⟨h1, h2⟩)
      · rcases List.mem_singleton.mp h1 with h2
        exact Or.inl ⟨(Prod.ext_iff.mp h2).1, (Prod.ext_iff.mp h2).2⟩
      · exact Or.inr ⟨h1, h2⟩
    · rintro (⟨hk, hv⟩ | ⟨h1, h2⟩)
      · exact Or.inl (by rw [hk, hv]; exact List.mem_singleton.mpr rfl)
      · exact Or.inr ⟨h1, h2⟩
  refine ⟨hfirst, ?_⟩
  intro k v t hkv hkt
  rcases (hfirst k v).mp hkv with ⟨hk, _⟩ | ⟨h1, _⟩
  · subst hk
    have hno : ∀ x ∈ FIELD_MAP, x.1 ≠ "bibtexkey" := by decide
    exact absurd rfl (hno ("bibtexkey", t) hkt)
  · exact (nodup_keys_unique hnd h1 hkt).symm

/-- Counterexample to C9 as stated (formalized as `sideBagClaimSpec`):
for `rec9` the bag holds the injected "bibtexkey" entry, which is not a
populated source field, and drops the populated field "zzz_custom",
which has no canonical target in the field map because it is absent
from the map altogether. -/
theorem C9_side_bag_counterexample :
    buildKw id rec9 7 = some (((buildKw id rec9 7).getD ([], [])).1, jd9) ∧
    ("bibtexkey", "xkey") ∈ jd9 ∧
    lookupBag rec9.fields "bibtexkey" = none ∧
    lookupBag rec9.fields "zzz_custom" = some "v" ∧
    (jd9.all (fun kv => kv.1 ≠ "zzz_custom")) = true ∧
    ¬ sideBagClaimSpec id rec9 jd9 := by
  refine ⟨by decide, by decide, by decide, by decide, by decide, ?_⟩
  intro hspec
  obtain ⟨raw, hraw, -⟩ := (hspec "bibtexkey" "xkey").mp (by decide)
  rw [show lookupBag rec9.fields "bibtexkey" = none from by decide] at hraw
  exact Option.noConfusion hraw

/-- Witness for C9 (amended): in `rec9`'s side-bag, the unmapped-target
field `glottolog_ref_id` is present with its raw text. -/
theorem C9_side_bag_witness : ("glottolog_ref_id", "7") ∈ jd9 := by
  have h := C9_side_bag id rec9 7 ((buildKw id rec9 7).getD ([], [])).1 jd9 (by decide)
  exact (h.1 "glottolog_ref_id" "7").mpr (Or.inr ⟨by decide, ⟨"7", by decide, rfl⟩⟩)

theorem mirrorTitle_lookup_ne (r : RefE) (k : String) (h : k ≠ "description") :
    lookupF (mirrorTitle r).fields k = lookupF r.fields k := by
  unfold mirrorTitle
  cases lookupF r.fields "title" with
  | none => rfl
  | some v =>
      dsimp only
      by_cases ht : v.truthy
      · rw [if_pos ht]
        exact lookupF_setF_ne r.fields "description" k v (fun q => h q.symm)
      · rw [if_neg ht]

theorem mirrorTitle_state (r : RefE) :
    (mirrorTitle r).jsondata = r.jsondata ∧
    (mirrorTitle r).macroareas = r.macroareas ∧
    (mirrorTitle r).providers = r.providers ∧
    (mirrorTitle r).doctypes = r.doctypes ∧
    (mirrorTitle r).doctypes_str = r.doctypes_str ∧
    (mirrorTitle r).providers_str = r.providers_str ∧
    (mirrorTitle r).name = r.name := by
  unfold mirrorTitle
  cases lookupF r.fields "title" with
  | none => exact ⟨rfl, rfl, rfl, rfl, rfl, rfl, rfl⟩
  | some v =>
      dsimp only
      by_cases ht : v.truthy
      · rw [if_pos ht]
        exact ⟨rfl, rfl, rfl, rfl, rfl, rfl, rfl⟩
      · rw [if_neg ht]
        exact ⟨rfl, rfl, rfl, rfl, rfl, rfl, rfl⟩

theorem updStep_collections (jd : Bag) (st : RefE × Bool × ChangeLog)
    (it : KwItem) :
    (updStep jd st it).1.macroareas = st.1.macroareas ∧
    (updStep jd st it).1.providers = st.1.providers ∧
    (updStep jd st it).1.doctypes = st.1.doctypes ∧
    (updStep jd st it).1.doctypes_str = st.1.doctypes_str ∧
    (updStep jd st it).1.providers_str = st.1.providers_str := by
  cases it with
  | jsonbag =>
      unfold updStep
      dsimp only
      by_cases hb : bagEqv jd st.1.jsondata
      · rw [if_pos hb]
        obtain ⟨-, h2, h3, h4, h5, h6, -⟩ := mirrorTitle_state st.1
        exact ⟨h2, h3, h4, h5, h6⟩
      · rw [if_neg hb]
        obtain ⟨-, h2, h3, h4, h5, h6, -⟩ :=
          mirrorTitle_state { st.1 with jsondata := mergeBag st.1.jsondata jd }
        exact ⟨h2, h3, h4, h5, h6⟩
  | scalar k v =>
      unfold updStep
      dsimp only
      by_cases hpk : k = "pk"
      · rw [if_pos hpk]
        exact ⟨rfl, rfl, rfl, rfl, rfl⟩
      · rw [if_neg hpk]
        by_cases hne : some v ≠ lookupF st.1.fields k
        · rw [if_pos hne]
          obtain ⟨-, h2, h3, h4, h5, h6, -⟩ :=
            mirrorTitle_state { st.1 with fields := setF st.1.fields k v }
          exact ⟨h2, h3, h4, h5, h6⟩
        · rw [if_neg hne]
          obtain ⟨-, h2, h3, h4, h5, h6, -⟩ := mirrorTitle_state st.1
          exact ⟨h2, h3, h4, h5, h6⟩

theorem updFold_collections (jd : Bag) (items : List KwItem) :
    ∀ st : RefE × Bool × ChangeLog,
    (items.foldl (updStep jd) st).1.macroareas = st.1.macroareas ∧
    (items.foldl (updStep jd) st).1.providers = st.1.providers ∧
    (items.foldl (updStep jd) st).1.doctypes = st.1.doctypes ∧
    (items.foldl (updStep jd) st).1.doctypes_str = st.1.doctypes_str ∧
    (items.foldl (updStep jd) st).1.providers_str = st.1.providers_str := by
  induction items with
  | nil => intro st; exact ⟨rfl, rfl, rfl, rfl, rfl⟩
  | cons it items ih =>
      intro st
      obtain ⟨i1, i2, i3, i4, i5⟩ := ih (updStep jd st it)
      obtain ⟨s1, s2, s3, s4, s5⟩ := updStep_collections jd st it
      exact ⟨i1.trans s1, i2.trans s2, i3.trans s3, i4.trans s4, i5.trans s5⟩

theorem updStep_lookup_stable (jd : Bag) (st : RefE × Bool × ChangeLog)
    (it : KwItem) (k : String) (hdesc : k ≠ "description")
    (hit : ∀ k' v', it = KwItem.scalar k' v' → k' ≠ k) :
    lookupF (updStep jd st it).1.fields k = lookupF st.1.fields k := by
  cases it with
  | jsonbag =>
      unfold updStep
      dsimp only
      by_cases hb : bagEqv jd st.1.jsondata
      · rw [if_pos hb, mirrorTitle_lookup_ne _ _ hdesc]
      · rw [if_neg hb, mirrorTitle_lookup_ne _ _ hdesc]
  | scalar k' v' =>
      have hne : k' ≠ k := hit k' v' rfl
      unfold updStep
      dsimp only
      by_cases hpk : k' = "pk"
      · rw [if_pos hpk]
      · rw [if_neg hpk]
        by_cases hd : some v' ≠ lookupF st.1.fields k'
        · rw [if_pos hd, mirrorTitle_lookup_ne _ _ hdesc]
          exact lookupF_setF_ne st.1.fields k' k v' hne
        · rw [if_neg hd, mirrorTitle_lookup_ne _ _ hdesc]

theorem updFold_lookup_stable (jd : Bag) (items : List KwItem) (k : String)
    (hdesc : k ≠ "description") (hk : k ∉ itemKeys items) :
    ∀ st, lookupF ((items.foldl (updStep jd) st).1.fields) k
      = lookupF st.1.fields k := by
  induction items with
  | nil => intro st; rfl
  | cons it items ih =>
      intro st
      have hk' : k ∉ itemKeys items := by
        intro hm
        exact hk (by simp [itemKeys] at hm ⊢; exact Or.inr hm)
      have hit : ∀ k' v', it = KwItem.scalar k' v' → k' ≠ k := by
        rintro k' v' rfl he
        exact hk (by simp [itemKeys, he])
      rw [List.foldl_cons, ih hk', updStep_lookup_stable jd st it k hdesc hit]

theorem updStep_scalar_sets (jd : Bag) (st : RefE × Bool × ChangeLog)
    (k : String) (v : Val) (hpk : k ≠ "pk") (hdesc : k ≠ "description") :
    lookupF (updStep jd st (KwItem.scalar k v)).1.fields k = some v := by
  unfold updStep
  dsimp only
  rw [if_neg hpk]
  by_cases hd : some v ≠ lookupF st.1.fields k
  · rw [if_pos hd, mirrorTitle_lookup_ne _ _ hdesc]
    exact lookupF_setF_self st.1.fields k v
  · rw [if_neg hd, mirrorTitle_lookup_ne _ _ hdesc]
    push_neg at hd
    exact hd.symm

theorem updateLoop_sets (kwF : Fields) (jd : Bag) (ref0 : RefE)
    (k : String) (v : Val) (hnd : (keysF kwF).Nodup)
    (hdesc : "description" ∉ keysF kwF) (hm : (k, v) ∈ kwF)
    (hpk : k ≠ "pk") :
    lookupF ((updateLoop kwF jd ref0).1.fields) k = some v := by
  obtain ⟨l1, l2, rfl⟩ := List.append_of_mem hm
  have hkdesc : k ≠ "description" := by
    intro he
    exact hdesc (he ▸ List.mem_map.mpr ⟨(k, v), hm, rfl⟩)
  have hknotl2 : k ∉ keysF l2 := by
    intro hmem
    have : ¬ (keysF (l1 ++ (k, v) :: l2)).Nodup := by
      simp only [keysF, List.map_append, List.map_cons]
      intro hnd2
      exact (List.nodup_cons.mp (List.nodup_append.mp hnd2).2.1).1 hmem
    exact this hnd
  unfold updateLoop
  rw [List.map_append, List.map_cons, List.append_assoc, List.foldl_append]
  rw [List.cons_append, List.foldl_cons]
  have hstable := updFold_lookup_stable jd
    (List.map (fun kv => KwItem.scalar kv.1 kv.2) l2 ++ [KwItem.jsonbag]) k hkdesc
    (by
      intro hmem
      simp only [itemKeys, List.filterMap_append, List.mem_append] at hmem
      rcases hmem with hmem | hmem
      · apply hknotl2
        simp only [List.filterMap_map, itemKeys] at hmem
        rcases List.mem_filterMap.mp hmem with ⟨kv, hkv, he⟩
        have he' : kv.1 = k := Option.some.inj he
        exact he' ▸ List.mem_map.mpr ⟨kv, hkv, rfl⟩
      · rcases List.mem_filterMap.mp hmem with ⟨it, hit, he⟩
        rcases List.mem_singleton.mp hit with rfl
        exact Option.noConfusion he)
    (updStep jd (List.foldl (updStep jd)
      (ref0, false, []) (List.map (fun kv => KwItem.scalar kv.1 kv.2) l1))
      (KwItem.scalar k v))
  rw [hstable]
  exact updStep_scalar_sets jd _ k v hpk hkdesc


theorem updFold_inv (jd : Bag) (kwF : Fields)
    (hdesc : "description" ∉ keysF kwF) :
    ∀ (items : List KwItem),
      (∀ k v, KwItem.scalar k v ∈ items → (k, v) ∈ kwF) →
      ∀ st : RefE × Bool × ChangeLog,
      (∀ k v, (k, v) ∈ kwF → k ≠ "pk" → lookupF st.1.fields k = some v) →
      (∀ k v, (k, v) ∈ kwF → k ≠ "pk" →
        lookupF (items.foldl (updStep jd) st).1.fields k = some v) ∧
      (items.foldl (updStep jd) st).2.1 = st.2.1 ∧
      (items.foldl (updStep jd) st).2.2 = st.2.2 := by
  intro items
  induction items with
  | nil => exact fun _ st hst => ⟨hst, rfl, rfl⟩
  | cons it items ih =>
      intro hmem st hst
      have hdesc' : ∀ k v, (k, v) ∈ kwF → k ≠ "description" := by
        intro k v hkv he
        exact hdesc (he ▸ List.mem_map.mpr ⟨(k, v), hkv, rfl⟩)
      have hstep : (∀ k v, (k, v) ∈ kwF → k ≠ "pk" →
          lookupF (updStep jd st it).1.fields k = some v) ∧
          (updStep jd st it).2.1 = st.2.1 ∧ (updStep jd st it).2.2 = st.2.2 := by
        cases it with
        | jsonbag =>
            refine ⟨?_, ?_, ?_⟩
            · intro k v hkv hpk
              unfold updStep
              dsimp only
              by_cases hb : bagEqv jd st.1.jsondata
              · rw [if_pos hb, mirrorTitle_lookup_ne _ _ (hdesc' k v hkv)]
                exact hst k v hkv hpk
              · rw [if_neg hb, mirrorTitle_lookup_ne _ _ (hdesc' k v hkv)]
                exact hst k v hkv hpk
            · rfl
            · rfl
        | scalar k' v' =>
            have hk'v' : (k', v') ∈ kwF := hmem k' v' (List.mem_cons_self _ _)
            by_cases hpk' : k' = "pk"
            · have : updStep jd st (KwItem.scalar k' v') = st := by
                unfold updStep
                dsimp only
                rw [if_pos hpk']
              rw [this]
              exact ⟨hst, rfl, rfl⟩
            · have hnodiff : ¬ some v' ≠ lookupF st.1.fields k' := by
                push_neg
                exact (hst k' v' hk'v' hpk').symm
              have : updStep jd st (KwItem.scalar k' v') =
                  (mirrorTitle st.1, st.2.1, st.2.2) := by
                unfold updStep
                dsimp only
                rw [if_neg hpk', if_neg hnodiff]
              rw [this]
              refine ⟨?_, rfl, rfl⟩
              intro k v hkv hpk
              rw [mirrorTitle_lookup_ne _ _ (hdesc' k v hkv)]
              exact hst k v hkv hpk
      obtain ⟨h1, h2, h3⟩ :=
        ih (fun k v hm => hmem k v (List.mem_cons_of_mem _ hm))
          (updStep jd st it) hstep.1
      exact ⟨h1, h2.trans hstep.2.1, h3.trans hstep.2.2⟩

/-- When every parsed field already carries its parsed value, the update
loop flips nothing and logs nothing. -/
theorem updateLoop_nochange (kwF : Fields) (jd : Bag) (ref0 : RefE)
    (hdesc : "description" ∉ keysF kwF)
    (hall : ∀ k v, (k, v) ∈ kwF → k ≠ "pk" → lookupF ref0.fields k = some v) :
    (updateLoop kwF jd ref0).2.1 = false ∧ (updateLoop kwF jd ref0).2.2 = [] := by
  have hmem : ∀ k v, KwItem.scalar k v ∈
      (kwF.map (fun kv => KwItem.scalar kv.1 kv.2) ++ [KwItem.jsonbag]) →
      (k, v) ∈ kwF := by
    intro k v hm
    rcases List.mem_append.mp hm with hm | hm
    · rcases List.mem_map.mp hm with ⟨kv, hkv, he⟩
      have h1 : kv.1 = k := (KwItem.scalar.injEq _ _ _ _ ▸ he).1
      have h2 : kv.2 = v := (KwItem.scalar.injEq _ _ _ _ ▸ he).2
      rw [← h1, ← h2]
      exact hkv
    · rcases List.mem_singleton.mp hm with he
      exact absurd he (by simp)
  obtain ⟨-, h2, h3⟩ := updFold_inv jd kwF hdesc _ hmem (ref0, false, []) hall
  exact ⟨h2, h3⟩

theorem updStep_jsondata_scalar (jd : Bag) (st : RefE × Bool × ChangeLog)
    (k : String) (v : Val) :
    (updStep jd st (KwItem.scalar k v)).1.jsondata = st.1.jsondata := by
  unfold updStep
  dsimp only
  by_cases hpk : k = "pk"
  · rw [if_pos hpk]
  · rw [if_neg hpk]
    by_cases hd : some v ≠ lookupF st.1.fields k
    · rw [if_pos hd]
      exact (mirrorTitle_state _).1
    · rw [if_neg hd]
      exact (mirrorTitle_state _).1

theorem updFold_jsondata_scalars (jd : Bag) (l : Fields) :
    ∀ st : RefE × Bool × ChangeLog,
    ((l.map (fun kv => KwItem.scalar kv.1 kv.2)).foldl (updStep jd) st).1.jsondata
      = st.1.jsondata := by
  induction l with
  | nil => intro st; rfl
  | cons kv l ih =>
      intro st
      rw [List.map_cons, List.foldl_cons, ih, updStep_jsondata_scalar]

/-- The update loop's side-bag result: merged when the parsed bag
differs as a dict, untouched otherwise. -/
theorem updateLoop_jsondata (kwF : Fields) (jd : Bag) (ref0 : RefE) :
    (updateLoop kwF jd ref0).1.jsondata =
      if bagEqv jd ref0.jsondata then ref0.jsondata
      else mergeBag ref0.jsondata jd := by
  unfold updateLoop
  rw [List.foldl_append, List.foldl_cons, List.foldl_nil]
  set stf := (kwF.map (fun kv => KwItem.scalar kv.1 kv.2)).foldl (updStep jd)
    (ref0, false, []) with hstf
  have hsc : stf.1.jsondata = ref0.jsondata :=
    updFold_jsondata_scalars jd kwF (ref0, false, [])
  show (updStep jd stf KwItem.jsonbag).1.jsondata = _
  unfold updStep
  dsimp only
  by_cases hb : bagEqv jd stf.1.jsondata
  · rw [if_pos hb, (mirrorTitle_state stf.1).1, hsc]
    rw [hsc] at hb
    rw [if_pos hb]
  · rw [if_neg hb,
      (mirrorTitle_state { stf.1 with jsondata := mergeBag stf.1.jsondata jd }).1]
    dsimp only
    rw [hsc] at hb ⊢
    rw [if_neg hb]


/-- In the update loop a truthy parsed title ends up mirrored into the
description column, whatever the existing reference held. -/
theorem updateLoop_mirrors_title (kwF : Fields) (jd : Bag) (ref0 : RefE)
    (t : String) (hnd : (keysF kwF).Nodup)
    (hdesc : "description" ∉ keysF kwF)
    (hmem : ("title", Val.s t) ∈ kwF) (ht : t ≠ "") :
    lookupF ((updateLoop kwF jd ref0).1.fields) "description"
      = some (Val.s t) := by
  have htitle := updateLoop_sets kwF jd ref0 "title" (Val.s t) hnd hdesc hmem
    (by decide)
  unfold updateLoop at htitle ⊢
  rw [List.foldl_append, List.foldl_cons, List.foldl_nil] at htitle ⊢
  set stf := (kwF.map (fun kv => KwItem.scalar kv.1 kv.2)).foldl (updStep jd)
    (ref0, false, []) with hstf
  revert htitle
  show lookupF (updStep jd stf KwItem.jsonbag).1.fields "title" = some (Val.s t) →
    lookupF (updStep jd stf KwItem.jsonbag).1.fields "description" = some (Val.s t)
  unfold updStep
  dsimp only
  intro htitle
  set X := if bagEqv jd stf.1.jsondata = true then stf.1
    else { stf.1 with jsondata := mergeBag stf.1.jsondata jd } with hX
  have hXt : lookupF X.fields "title" = some (Val.s t) := by
    rw [mirrorTitle_lookup_ne X "title" (by decide)] at htitle
    exact htitle
  show lookupF (mirrorTitle X).fields "description" = some (Val.s t)
  unfold mirrorTitle
  rw [hXt]
  dsimp only
  rw [if_pos (by simp [Val.truthy, ht])]
  exact lookupF_setF_self X.fields "description" (Val.s t)

theorem update_relationship_subset_noop (col new : List Entity)
    (h : ∀ e ∈ new, e ∈ col) :
    (update_relationship col new).1 = col ∧
    (update_relationship col new).2.1 = [] := by
  obtain ⟨t, h1, h2, h3⟩ := urFold_spec new col []
  have ht : t = [] := by
    cases t with
    | nil => rfl
    | cons e t' =>
        exact absurd (h e (h2 e (List.mem_cons_self _ _)).1)
          (h2 e (List.mem_cons_self _ _)).2
  subst ht
  constructor
  · show (new.foldl urStep (col, [])).1 = col
    rw [h1]
    simp
  · show (new.foldl urStep (col, [])).2 = []
    rw [h1]
    rfl

theorem update_relationship_removed_false (col new : List Entity)
    (h : ∀ e ∈ col, e ∈ new) :
    (update_relationship col new).2.2 = false := by
  show col.any (fun e => ¬ e ∈ new) = false
  rw [List.any_eq_false]
  intro e he
  simp [h e he]

theorem update_relationship_mem (col new : List Entity) :
    (∀ e ∈ new, e ∈ (update_relationship col new).1) ∧
    (∀ e ∈ (update_relationship col new).1,
      e ∈ col ∨ e ∈ new) := by
  obtain ⟨t, h1, h2, h3⟩ := urFold_spec new col []
  have hcol : (update_relationship col new).1 = col ++ t := by
    show (new.foldl urStep (col, [])).1 = col ++ t
    rw [h1]
  constructor
  · intro e he
    rw [hcol]
    exact h3 e he
  · intro e he
    rw [hcol] at he
    rcases List.mem_append.mp he with he | he
    · exact Or.inl he
    · exact Or.inr (h2 e he).1

theorem appendAll_subset_noop (attr objs : List Entity)
    (h : ∀ e ∈ objs, e ∈ attr) : appendAll attr objs = (attr, false) := by
  obtain ⟨t, h1, h2, h3⟩ := apFold_spec objs attr false
  have ht : t = [] := by
    cases t with
    | nil => rfl
    | cons e t' =>
        exact absurd (h e (h2 e (List.mem_cons_self _ _)).1)
          (h2 e (List.mem_cons_self _ _)).2
  subst ht
  show objs.foldl apStep (attr, false) = (attr, false)
  rw [h1]
  simp

theorem appendAll_mem (attr objs : List Entity) :
    ∀ e ∈ objs, e ∈ (appendAll attr objs).1 := by
  obtain ⟨t, h1, h2, h3⟩ := apFold_spec objs attr false
  intro e he
  show e ∈ (objs.foldl apStep (attr, false)).1
  rw [h1]
  exact h3 e he

theorem relPhase_ref_eq (cfg : RunCfg) (jd : Bag) (r : RefE) (c : Bool) :
    (relPhase cfg jd r c).1.fields = r.fields ∧
    (relPhase cfg jd r c).1.jsondata = r.jsondata ∧
    (relPhase cfg jd r c).1.doctypes_str = r.doctypes_str ∧
    (relPhase cfg jd r c).1.providers_str = r.providers_str := by
  exact ⟨rfl, rfl, rfl, rfl⟩

theorem relPhase_collections (cfg : RunCfg) (jd : Bag) (r : RefE) (c : Bool) :
    (relPhase cfg jd r c).1.macroareas
      = (update_relationship r.macroareas (desiredMacroareas cfg jd)).1 ∧
    (relPhase cfg jd r c).1.providers
      = (appendAll r.providers (desiredProviders cfg jd)).1 ∧
    (relPhase cfg jd r c).1.doctypes
      = (update_relationship r.doctypes (desiredDoctypes cfg jd)).1 := by
  exact ⟨rfl, rfl, rfl⟩

theorem relPhase_noop (cfg : RunCfg) (jd : Bag) (r : RefE)
    (hm1 : ∀ e ∈ desiredMacroareas cfg jd, e ∈ r.macroareas)
    (hm2 : ∀ e ∈ r.macroareas, e ∈ desiredMacroareas cfg jd)
    (hp : ∀ e ∈ desiredProviders cfg jd, e ∈ r.providers)
    (hd1 : ∀ e ∈ desiredDoctypes cfg jd, e ∈ r.doctypes)
    (hd2 : ∀ e ∈ r.doctypes, e ∈ desiredDoctypes cfg jd) :
    (relPhase cfg jd r false).2 = false := by
  unfold relPhase
  obtain ⟨hmc, hma⟩ := update_relationship_subset_noop r.macroareas _ hm1
  have hmr := update_relationship_removed_false r.macroareas _ hm2
  have hpn := appendAll_subset_noop r.providers _ hp
  obtain ⟨hdc, hda⟩ := update_relationship_subset_noop r.doctypes _ hd1
  have hdr := update_relationship_removed_false r.doctypes _ hd2
  simp only [hma, hmr, hpn, hda, hdr]
  simp

theorem updateLoop_collections (kwF : Fields) (jd : Bag) (r : RefE) :
    (updateLoop kwF jd r).1.macroareas = r.macroareas ∧
    (updateLoop kwF jd r).1.providers = r.providers ∧
    (updateLoop kwF jd r).1.doctypes = r.doctypes ∧
    (updateLoop kwF jd r).1.doctypes_str = r.doctypes_str ∧
    (updateLoop kwF jd r).1.providers_str = r.providers_str := by
  unfold updateLoop
  exact updFold_collections jd _ (r, false, [])


theorem mergeStage_fields_sets (kwF : Fields) (jd : Bag) (r? : Option RefE)
    (k : String) (v : Val) (hnd : (keysF kwF).Nodup)
    (hdesc : "description" ∉ keysF kwF) (hm : (k, v) ∈ kwF)
    (hpk : k ≠ "pk") :
    lookupF (mergeStage kwF jd r?).1.fields k = some v := by
  cases r? with
  | none => exact lookupF_eq_of_mem_nodup kwF k v hnd hm
  | some ref0 => exact updateLoop_sets kwF jd ref0 k v hnd hdesc hm hpk

theorem mergeStage_collections (kwF : Fields) (jd : Bag) (r? : Option RefE) :
    (mergeStage kwF jd r?).1.macroareas
      = (match r? with | some r => r.macroareas | none => []) ∧
    (mergeStage kwF jd r?).1.providers
      = (match r? with | some r => r.providers | none => []) ∧
    (mergeStage kwF jd r?).1.doctypes
      = (match r? with | some r => r.doctypes | none => []) := by
  cases r? with
  | none => exact ⟨rfl, rfl, rfl⟩
  | some r =>
      obtain ⟨h1, h2, h3, -, -⟩ := updateLoop_collections kwF jd r
      exact ⟨h1, h2, h3⟩

theorem applyRecord_outcome (cfg : RunCfg) (store : RefStore) (id_ : Int)
    (kwF : Fields) (jd : Bag) :
    (applyRecord cfg store id_ kwF jd).changed
      = (relPhase cfg jd (mergeStage kwF jd (storeGet store id_)).1
          (mergeStage kwF jd (storeGet store id_)).2.1).2 ∧
    (applyRecord cfg store id_ kwF jd).countInc
      = (if (relPhase cfg jd (mergeStage kwF jd (storeGet store id_)).1
          (mergeStage kwF jd (storeGet store id_)).2.1).2 then 1 else 0) ∧
    (applyRecord cfg store id_ kwF jd).changesEntry
      = (if (storeGet store id_).isSome ∧
            (mergeStage kwF jd (storeGet store id_)).2.2 ≠ [] then
          some (toString id_, (mergeStage kwF jd (storeGet store id_)).2.2)
        else none) := by
  exact ⟨rfl, rfl, rfl⟩

theorem applyRecord_storeGet (cfg : RunCfg) (store : RefStore) (id_ : Int)
    (kwF : Fields) (jd : Bag) :
    ∃ ref', storeGet (applyRecord cfg store id_ kwF jd).store id_ = some ref' ∧
      ref'.fields = (mergeStage kwF jd (storeGet store id_)).1.fields ∧
      ref'.jsondata = (mergeStage kwF jd (storeGet store id_)).1.jsondata ∧
      ref'.macroareas = (update_relationship
        (mergeStage kwF jd (storeGet store id_)).1.macroareas
        (desiredMacroareas cfg jd)).1 ∧
      ref'.providers = (appendAll
        (mergeStage kwF jd (storeGet store id_)).1.providers
        (desiredProviders cfg jd)).1 ∧
      ref'.doctypes = (update_relationship
        (mergeStage kwF jd (storeGet store id_)).1.doctypes
        (desiredDoctypes cfg jd)).1 := by
  unfold applyRecord
  dsimp only
  set ms := mergeStage kwF jd (storeGet store id_) with hms
  set rc := relPhase cfg jd ms.1 ms.2.1 with hrc
  obtain ⟨hf, hj, -, -⟩ := relPhase_ref_eq cfg jd ms.1 ms.2.1
  obtain ⟨hc1, hc2, hc3⟩ := relPhase_collections cfg jd ms.1 ms.2.1
  by_cases h : rc.2
  · rw [if_pos h]
    refine ⟨_, storeGet_storeSet_self _ _ _, ?_, ?_, ?_, ?_, ?_⟩ <;>
      simpa using (by first
        | exact hf
        | exact hj
        | exact hc1
        | exact hc2
        | exact hc3)
  · rw [if_neg h]
    exact ⟨rc.1, storeGet_storeSet_self _ _ _, hf, hj, hc1, hc2, hc3⟩


theorem setF_keys_inv (f : Fields) (k : String) (v : Val)
    (hk : k ≠ "description") (hnd : (keysF f).Nodup)
    (hd : "description" ∉ keysF f) :
    (keysF (setF f k v)).Nodup ∧ "description" ∉ keysF (setF f k v) := by
  refine ⟨nodup_keysF_setF f k v hnd, ?_⟩
  intro hmem
  rcases (mem_keysF_setF f k "description" v).mp hmem with h | h
  · exact hd h
  · exact hk h.symm

theorem bkFold_keys_inv (unesc : String → String) (rec : RecE)
    (l : List (String × String)) (htgt : ∀ st ∈ l, st.2 ≠ "description") :
    ∀ acc res : Fields × Bag,
      l.foldlM (bkStep unesc rec) acc = some res →
      (keysF acc.1).Nodup → "description" ∉ keysF acc.1 →
      (keysOf acc.2).Nodup →
      (keysF res.1).Nodup ∧ "description" ∉ keysF res.1 ∧
        (keysOf res.2).Nodup := by
  induction l with
  | nil =>
      intro acc res hfold h1 h2 h3
      simp only [List.foldlM_nil, Option.pure_def, Option.some.injEq] at hfold
      subst hfold
      exact ⟨h1, h2, h3⟩
  | cons st l ih =>
      intro acc res hfold h1 h2 h3
      simp only [List.foldlM_cons] at hfold
      cases hstep : bkStep unesc rec acc st with
      | none =>
          rw [hstep] at hfold
          exact Option.noConfusion hfold
      | some acc' =>
          rw [hstep] at hfold
          replace hfold : l.foldlM (bkStep unesc rec) acc' = some res := hfold
          have htgt' : ∀ x ∈ l, x.2 ≠ "description" :=
            fun x hx => htgt x (List.mem_cons_of_mem _ hx)
          have hinv : (keysF acc'.1).Nodup ∧ "description" ∉ keysF acc'.1 ∧
              (keysOf acc'.2).Nodup := by
            unfold bkStep at hstep
            cases hget : rec.getT st.1 with
            | none =>
                rw [hget] at hstep
                simp only [Option.some.injEq] at hstep
                subst hstep
                exact ⟨h1, h2, h3⟩
            | some value0 =>
                rw [hget] at hstep
                dsimp only at hstep
                by_cases ht : st.2 ≠ ""
                · rw [if_pos ht] at hstep
                  cases hconv : applyConverter st.1 (unesc value0) with
                  | none =>
                      rw [hconv] at hstep
                      exact Option.noConfusion hstep
                  | some v0 =>
                      rw [hconv] at hstep
                      simp only [Option.some.injEq] at hstep
                      subst hstep
                      obtain ⟨q1, q2⟩ := setF_keys_inv acc.1 st.2 v0
                        (htgt st (List.mem_cons_self _ _)) h1 h2
                      exact ⟨q1, q2, h3⟩
                · rw [if_neg ht] at hstep
                  simp only [Option.some.injEq] at hstep
                  subst hstep
                  exact ⟨h1, h2, nodup_keysOf_bagSet acc.2 st.1 (unesc value0) h3⟩
          exact ih htgt' acc' res hfold hinv.1 hinv.2.1 hinv.2.2

/-- The parsed `kw` dict and side-bag have unique keys, and `kw` never
holds a `description` key. -/
theorem buildKw_inv (unesc : String → String) (rec : RecE) (id_ : Int)
    (kw0 : Fields) (jd : Bag) (h : buildKw unesc rec id_ = some (kw0, jd)) :
    (keysF kw0).Nodup ∧ "description" ∉ keysF kw0 ∧ (keysOf jd).Nodup := by
  have htgt : ∀ st ∈ FIELD_MAP, st.2 ≠ "description" := by decide
  refine bkFold_keys_inv unesc rec FIELD_MAP htgt _ (kw0, jd) h ?_ ?_ ?_
  · show (["pk", "bibtex_type", "id"] : List String).Nodup
    decide
  · show "description" ∉ (["pk", "bibtex_type", "id"] : List String)
    decide
  · show (["bibtexkey"] : List String).Nodup
    decide

theorem numberofpagesStep_keys_inv (rec : RecE) (kw : Fields)
    (hnd : (keysF kw).Nodup) (hd : "description" ∉ keysF kw) :
    (keysF (numberofpagesStep rec kw)).Nodup ∧
      "description" ∉ keysF (numberofpagesStep rec kw) := by
  unfold numberofpagesStep
  cases rec.getT "numberofpages" with
  | none => exact ⟨hnd, hd⟩
  | some v =>
      dsimp only
      cases parseInt (pyStrip v) with
      | none => exact ⟨hnd, hd⟩
      | some n => exact setF_keys_inv kw "pages_int" (Val.i n) (by decide) hnd hd

theorem yearStep_keys_inv (kw : Fields)
    (hnd : (keysF kw).Nodup) (hd : "description" ∉ keysF kw) :
    (keysF (yearStep kw)).Nodup ∧ "description" ∉ keysF (yearStep kw) := by
  unfold yearStep
  cases lookupF kw "year" with
  | none => exact ⟨hnd, hd⟩
  | some v =>
      cases v with
      | i n => exact ⟨hnd, hd⟩
      | s y =>
          dsimp only
          by_cases he : y = ""
          · rw [if_pos he]
            exact ⟨hnd, hd⟩
          · rw [if_neg he]
            cases extractYearInt y with
            | none => exact ⟨hnd, hd⟩
            | some n =>
                exact setF_keys_inv kw "year_int" (Val.i (n : Int)) (by decide) hnd hd

theorem publisherStep_keys_inv (kw : Fields)
    (hnd : (keysF kw).Nodup) (hd : "description" ∉ keysF kw) :
    (keysF (publisherStep kw)).Nodup ∧
      "description" ∉ keysF (publisherStep kw) := by
  unfold publisherStep
  cases lookupF kw "publisher" with
  | none => exact ⟨hnd, hd⟩
  | some v =>
      cases v with
      | i n => exact ⟨hnd, hd⟩
      | s p =>
          dsimp only
          by_cases he : p = ""
          · rw [if_pos he]
            exact ⟨hnd, hd⟩
          · rw [if_neg he]
            cases splitFirstColon p with
            | none => exact ⟨hnd, hd⟩
            | some ap =>
                dsimp only
                cases lookupF kw "address" with
                | none =>
                    simp only [if_true]
                    obtain ⟨q1, q2⟩ := setF_keys_inv kw "address" (Val.s ap.1)
                      (by decide) hnd hd
                    exact setF_keys_inv _ "publisher" (Val.s ap.2) (by decide) q1 q2
                | some av =>
                    by_cases hv : av = Val.s ap.1
                    · simp only [hv, decide_True, if_true]
                      obtain ⟨q1, q2⟩ := setF_keys_inv kw "address" (Val.s ap.1)
                        (by decide) hnd hd
                      exact setF_keys_inv _ "publisher" (Val.s ap.2) (by decide) q1 q2
                    · simp only [hv, decide_False, if_false]
                      exact ⟨hnd, hd⟩

theorem pagesStep_keys_inv (kw : Fields)
    (hnd : (keysF kw).Nodup) (hd : "description" ∉ keysF kw) :
    (keysF (pagesStep kw)).Nodup ∧ "description" ∉ keysF (pagesStep kw) := by
  unfold pagesStep
  cases lookupF kw "pages" with
  | none => exact ⟨hnd, hd⟩
  | some v =>
      cases v with
      | i n => exact ⟨hnd, hd⟩
      | s p =>
          dsimp only
          by_cases he : p = ""
          · rw [if_pos he]
            exact ⟨hnd, hd⟩
          · rw [if_neg he]
            cases romanRaSearch p.data with
            | some r =>
                dsimp only
                by_cases hn : (lookupF kw "pages_int").isNone
                · rw [if_pos hn]
                  exact setF_keys_inv kw "pages_int" _ (by decide) hnd hd
                · rw [if_neg hn]
                  exact ⟨hnd, hd⟩
            | none =>
                dsimp only
                cases romanArSearch p.data with
                | some r =>
                    dsimp only
                    by_cases hn : (lookupF kw "pages_int").isNone
                    · rw [if_pos hn]
                      exact setF_keys_inv kw "pages_int" _ (by decide) hnd hd
                    · rw [if_neg hn]
                      exact ⟨hnd, hd⟩
                | none =>
                    dsimp only
                    rcases compute_pages p with ⟨st, ⟨en, num⟩⟩
                    dsimp only
                    have s1 : ∀ kw' : Fields, (keysF kw').Nodup →
                        "description" ∉ keysF kw' →
                        (keysF (match st with
                          | some s => setF kw' "startpage_int" (Val.i s)
                          | none => kw')).Nodup ∧
                        "description" ∉ keysF (match st with
                          | some s => setF kw' "startpage_int" (Val.i s)
                          | none => kw') := by
                      intro kw' q1 q2
                      cases st with
                      | none => exact ⟨q1, q2⟩
                      | some s => exact setF_keys_inv kw' "startpage_int" _ (by decide) q1 q2
                    obtain ⟨q1, q2⟩ := s1 kw hnd hd
                    have s2 : ∀ kw' : Fields, (keysF kw').Nodup →
                        "description" ∉ keysF kw' →
                        (keysF (match en with
                          | some e => setF kw' "endpage_int" (Val.i e)
                          | none => kw')).Nodup ∧
                        "description" ∉ keysF (match en with
                          | some e => setF kw' "endpage_int" (Val.i e)
                          | none => kw') := by
                      intro kw' q1 q2
                      cases en with
                      | none => exact ⟨q1, q2⟩
                      | some e => exact setF_keys_inv kw' "endpage_int" _ (by decide) q1 q2
                    obtain ⟨q3, q4⟩ := s2 _ q1 q2
                    cases num with
                    | none => exact ⟨q3, q4⟩
                    | some n => exact setF_keys_inv _ "pages_int" _ (by decide) q3 q4

/-- The derived-field steps keep the `kw` keys unique and free of
`description`. -/
theorem addDerived_inv (rec : RecE) (kw : Fields)
    (hnd : (keysF kw).Nodup) (hd : "description" ∉ keysF kw) :
    (keysF (addDerived rec kw)).Nodup ∧
      "description" ∉ keysF (addDerived rec kw) := by
  obtain ⟨q1, q2⟩ := numberofpagesStep_keys_inv rec kw hnd hd
  obtain ⟨q3, q4⟩ := yearStep_keys_inv _ q1 q2
  obtain ⟨q5, q6⟩ := publisherStep_keys_inv _ q3 q4
  exact pagesStep_keys_inv _ q5 q6

/-- A non-sparse record with a parseable id, run in update mode, goes
through `applyRecord` on the parsed fields. -/
theorem processRecord_update_eq (cfg : RunCfg) (knownIds : List Int)
    (store : RefStore) (rec : RecE) (gid : String) (id_ : Int)
    (kw0 : Fields) (jd : Bag)
    (hlen : ¬ rec.fields.length < 6)
    (hgid : rec.getT "glottolog_ref_id" = some gid)
    (hid : parseInt gid = some id_)
    (hkw : buildKw cfg.unesc rec id_ = some (kw0, jd)) :
    processRecord cfg Mode.update knownIds store rec
      = some (applyRecord cfg store id_ (addDerived rec kw0) jd) := by
  unfold processRecord
  rw [if_neg hlen, hgid]
  dsimp only
  rw [hid]
  dsimp only
  rw [if_neg (by simp)]
  rw [hkw]


theorem bagEqv_mem (a b : Bag) (h : bagEqv a b = true) :
    ∀ kv, kv ∈ a → kv ∈ b := by
  intro kv hm
  unfold bagEqv at h
  rw [Bool.and_eq_true, List.all_eq_true, List.all_eq_true] at h
  simpa using h.1 kv hm

/-- C2 (amended): re-running the merge engine on an identical record
against the state the first run produced yields `changed=False`, no
changed-count increment and no change-log entry — provided the starting
reference's macroarea and doctype collections hold no member outside
the record's desired sets (in particular whenever the first run created
the reference). Without that proviso the informational removed-flag of
the relationship reconciliation keeps reporting a change on every
run. -/
theorem C2_rerun_idempotent (cfg : RunCfg) (k1 k2 : List Int)
    (store : RefStore) (rec : RecE) (gid : String) (id_ : Int)
    (kw0 : Fields) (jd : Bag) (out1 out2 : Outcome)
    (hgid : rec.getT "glottolog_ref_id" = some gid)
    (hid : parseInt gid = some id_)
    (hkw : buildKw cfg.unesc rec id_ = some (kw0, jd))
    (hext : ∀ ref0, storeGet store id_ = some ref0 →
      (∀ e ∈ ref0.macroareas, e ∈ desiredMacroareas cfg jd) ∧
      (∀ e ∈ ref0.doctypes, e ∈ desiredDoctypes cfg jd))
    (h1 : processRecord cfg Mode.update k1 store rec = some out1)
    (h2 : processRecord cfg Mode.update k2 out1.store rec = some out2) :
    out2.changed = false ∧ out2.changesEntry = none ∧ out2.countInc = 0 := by
  by_cases hlen : rec.fields.length < 6
  · unfold processRecord at h2
    rw [if_pos hlen] at h2
    have := Option.some.inj h2
    rw [← this]
    exact ⟨rfl, rfl, rfl⟩
  · rw [processRecord_update_eq cfg k1 store rec gid id_ kw0 jd hlen hgid hid hkw] at h1
    have hout1 : out1 = applyRecord cfg store id_ (addDerived rec kw0) jd :=
      (Option.some.inj h1).symm
    set kwF := addDerived rec kw0 with hkwF
    obtain ⟨hbnd, hbdesc, hjnd⟩ := buildKw_inv cfg.unesc rec id_ kw0 jd hkw
    obtain ⟨hnd, hdesc⟩ := addDerived_inv rec kw0 hbnd hbdesc
    obtain ⟨ref5, hget5, hfields5, hjson5, hmac5, hprov5, hdoct5⟩ :=
      applyRecord_storeGet cfg store id_ kwF jd
    rw [hout1] at h2
    rw [processRecord_update_eq cfg k2 _ rec gid id_ kw0 jd hlen hgid hid hkw] at h2
    have hout2 : out2
        = applyRecord cfg (applyRecord cfg store id_ kwF jd).store id_ kwF jd :=
      (Option.some.inj h2).symm
    obtain ⟨hch2, hcnt2, hce2⟩ :=
      applyRecord_outcome cfg (applyRecord cfg store id_ kwF jd).store id_ kwF jd
    rw [hget5] at hch2 hcnt2 hce2
    have hmsdef : mergeStage kwF jd (some ref5) = updateLoop kwF jd ref5 := rfl
    rw [hmsdef] at hch2 hcnt2 hce2
    have hall : ∀ k v, (k, v) ∈ kwF → k ≠ "pk" →
        lookupF ref5.fields k = some v := by
      intro k v hm hpk
      rw [hfields5]
      exact mergeStage_fields_sets kwF jd (storeGet store id_) k v hnd hdesc hm hpk
    obtain ⟨hnc1, hnc2⟩ := updateLoop_nochange kwF jd ref5 hdesc hall
    obtain ⟨hmsC1, hmsC2, hmsC3⟩ := mergeStage_collections kwF jd (storeGet store id_)
    have hbaseM : ∀ e ∈ (mergeStage kwF jd (storeGet store id_)).1.macroareas,
        e ∈ desiredMacroareas cfg jd := by
      rw [hmsC1]
      cases hst : storeGet store id_ with
      | none => intro e he; exact absurd he (List.not_mem_nil e)
      | some ref0 => exact (hext ref0 hst).1
    have hbaseD : ∀ e ∈ (mergeStage kwF jd (storeGet store id_)).1.doctypes,
        e ∈ desiredDoctypes cfg jd := by
      rw [hmsC3]
      cases hst : storeGet store id_ with
      | none => intro e he; exact absurd he (List.not_mem_nil e)
      | some ref0 => exact (hext ref0 hst).2
    have hm1' : ∀ e ∈ desiredMacroareas cfg jd, e ∈ ref5.macroareas := by
      intro e he
      rw [hmac5]
      exact (update_relationship_mem _ _).1 e he
    have hm2' : ∀ e ∈ ref5.macroareas, e ∈ desiredMacroareas cfg jd := by
      intro e he
      rw [hmac5] at he
      rcases (update_relationship_mem _ _).2 e he with hb | hn
      · exact hbaseM e hb
      · exact hn
    have hp' : ∀ e ∈ desiredProviders cfg jd, e ∈ ref5.providers := by
      intro e he
      rw [hprov5]
      exact appendAll_mem _ _ e he
    have hd1' : ∀ e ∈ desiredDoctypes cfg jd, e ∈ ref5.doctypes := by
      intro e he
      rw [hdoct5]
      exact (update_relationship_mem _ _).1 e he
    have hd2' : ∀ e ∈ ref5.doctypes, e ∈ desiredDoctypes cfg jd := by
      intro e he
      rw [hdoct5] at he
      rcases (update_relationship_mem _ _).2 e he with hb | hn
      · exact hbaseD e hb
      · exact hn
    obtain ⟨ul1, ul2, ul3, -, -⟩ := updateLoop_collections kwF jd ref5
    have hrel : (relPhase cfg jd (updateLoop kwF jd ref5).1
        (updateLoop kwF jd ref5).2.1).2 = false := by
      rw [hnc1]
      apply relPhase_noop
      · rw [ul1]; exact hm1'
      · rw [ul1]; exact hm2'
      · rw [ul2]; exact hp'
      · rw [ul3]; exact hd1'
      · rw [ul3]; exact hd2'
    refine ⟨?_, ?_, ?_⟩
    · rw [hout2, hch2, hrel]
    · rw [hout2, hce2, hnc2]
      simp
    · rw [hout2, hcnt2, hrel]
      simp

/-- Counterexample to C2 as stated: against a starting state whose
reference carries an extra macroarea ("Eurasia") absent from the
record, the second identical run still reports `changed=True` (the
removed-flag fires again), though it logs nothing. -/
theorem C2_rerun_idempotent_counterexample :
    processRecord cfgX Mode.update [] [(42, refYC2)] recC2 = some outC2b ∧
    processRecord cfgX Mode.update [] outC2b.store recC2 = some outC2c ∧
    outC2c.changed = true ∧ outC2c.changesEntry = none := by
  refine ⟨by decide, by decide, by decide, by decide⟩

/-- Witness for C2 (amended): after creating the reference for `recC2`
from an empty store, the second run changes nothing. -/
theorem C2_rerun_idempotent_witness :
    outW2.changed = false ∧ outW2.changesEntry = none ∧ outW2.countInc = 0 :=
  C2_rerun_idempotent cfgX [] [] [] recC2 "42" 42 kw0X jdX outW1 outW2
    (by decide) (by decide) (by decide)
    (fun ref0 h => Option.noConfusion h) (by decide) (by decide)

/-- C5 (amended): on the update path the update loop mirrors a truthy
parsed title into the description column on every pass — with no
assumption that the stored title differed; the create path (see the
counterexample) does not set the description during its pass. -/
theorem C5_title_description_mirroring (kwF : Fields) (jd : Bag)
    (ref0 : RefE) (t : String) (hnd : (keysF kwF).Nodup)
    (hdesc : "description" ∉ keysF kwF)
    (hmem : ("title", Val.s t) ∈ kwF) (ht : t ≠ "") :
    lookupF ((updateLoop kwF jd ref0).1.fields) "description"
      = some (Val.s t) ∧
    lookupF ((updateLoop kwF jd ref0).1.fields) "title" = some (Val.s t) :=
  ⟨updateLoop_mirrors_title kwF jd ref0 t hnd hdesc hmem ht,
   updateLoop_sets kwF jd ref0 "title" (Val.s t) hnd hdesc hmem (by decide)⟩

/-- Counterexample to C5 as stated: on the create path the freshly
created reference carries its title but no description at all. -/
theorem C5_title_description_mirroring_counterexample :
    processRecord cfgX Mode.update [] [] recC2 = some outW1 ∧
    storeGet outW1.store 42 = some refBase ∧
    lookupF refBase.fields "title" = some (Val.s "A Grammar") ∧
    lookupF refBase.fields "description" = none := by
  refine ⟨by decide, by decide, by decide, by decide⟩

/-- Witness for C5 (amended): updating `refBase` — whose stored title
already equals the parsed one — still sets the description. -/
theorem C5_title_description_mirroring_witness :
    lookupF ((updateLoop (addDerived recC2 kw0X) jdX refBase).1.fields)
      "description" = some (Val.s "A Grammar") :=
  (C5_title_description_mirroring (addDerived recC2 kw0X) jdX refBase
    "A Grammar" (by decide) (by decide) (by decide) (by decide)).1


/-- C10 (amended): on the update path, when every parsed scalar field
already matches the stored reference and the relationship sets derived
from the side-bag match its collections, a record whose remaining
difference is confined to the jsondata side-bag is merged into the
entity without setting the changed flag: no change-log entry, no
changed-counter increment, and the summary strings stay untouched; the
side-bag values are written into the stored bag. When the side-bag
difference alters the derived relationship sets (see the
counterexample), the changed flag does fire. -/
theorem C10_sidebag_only_difference (cfg : RunCfg) (store : RefStore)
    (id_ : Int) (kwF : Fields) (jd : Bag) (ref0 : RefE)
    (hstore : storeGet store id_ = some ref0)
    (hdesc : "description" ∉ keysF kwF)
    (hjnd : (keysOf jd).Nodup) (hnd0 : (keysOf ref0.jsondata).Nodup)
    (hall : ∀ kv ∈ kwF, kv.1 ≠ "pk" → lookupF ref0.fields kv.1 = some kv.2)
    (hm1 : ∀ e ∈ desiredMacroareas cfg jd, e ∈ ref0.macroareas)
    (hm2 : ∀ e ∈ ref0.macroareas, e ∈ desiredMacroareas cfg jd)
    (hp : ∀ e ∈ desiredProviders cfg jd, e ∈ ref0.providers)
    (hd1 : ∀ e ∈ desiredDoctypes cfg jd, e ∈ ref0.doctypes)
    (hd2 : ∀ e ∈ ref0.doctypes, e ∈ desiredDoctypes cfg jd) :
    (applyRecord cfg store id_ kwF jd).changed = false ∧
    (applyRecord cfg store id_ kwF jd).changesEntry = none ∧
    (applyRecord cfg store id_ kwF jd).countInc = 0 ∧
    ∃ ref', storeGet (applyRecord cfg store id_ kwF jd).store id_ = some ref' ∧
      ref'.doctypes_str = ref0.doctypes_str ∧
      ref'.providers_str = ref0.providers_str ∧
      ∀ k v, lookupBag jd k = some v → lookupBag ref'.jsondata k = some v := by
  obtain ⟨hnc1, hnc2⟩ := updateLoop_nochange kwF jd ref0 hdesc
    (fun k v hm hpk => hall (k, v) hm hpk)
  obtain ⟨ul1, ul2, ul3, ul4, ul5⟩ := updateLoop_collections kwF jd ref0
  have hrc : (relPhase cfg jd (updateLoop kwF jd ref0).1
      (updateLoop kwF jd ref0).2.1).2 = false := by
    rw [hnc1]
    apply relPhase_noop
    · rw [ul1]; exact hm1
    · rw [ul1]; exact hm2
    · rw [ul2]; exact hp
    · rw [ul3]; exact hd1
    · rw [ul3]; exact hd2
  unfold applyRecord
  rw [hstore]
  dsimp only
  have hmsdef : mergeStage kwF jd (some ref0) = updateLoop kwF jd ref0 := rfl
  rw [hmsdef]
  rw [hrc]
  simp only [Bool.false_eq_true, if_false]
  refine ⟨by trivial, ?_, by trivial, ?_⟩
  · rw [hnc2]
    simp
  · refine ⟨_, storeGet_storeSet_self _ _ _, ?_, ?_, ?_⟩
    · exact ((relPhase_ref_eq cfg jd _ _).2.2.1).trans ul4
    · exact ((relPhase_ref_eq cfg jd _ _).2.2.2).trans ul5
    · intro k v hk
      have hj : (relPhase cfg jd (updateLoop kwF jd ref0).1
          (updateLoop kwF jd ref0).2.1).1.jsondata
          = (updateLoop kwF jd ref0).1.jsondata :=
        (relPhase_ref_eq cfg jd _ _).2.1
      rw [hj, updateLoop_jsondata kwF jd ref0]
      by_cases hb : bagEqv jd ref0.jsondata
      · rw [if_pos hb]
        exact lookupBag_eq_of_mem_nodup ref0.jsondata k v hnd0
          (bagEqv_mem jd ref0.jsondata hb (k, v) (mem_of_lookupBag jd k v hk))
      · rw [if_neg hb, lookupBag_mergeBag jd ref0.jsondata k hjnd, hk]

/-- Counterexample to C10 as stated: record `recC10` and stored
reference `refQ10` agree on every scalar field and differ only in the
side-bag (`src`: "provA, provB" vs "provA"), yet the run reports
`changed=True`, bumps the changed counter and recomputes
`providers_str` — because the side-bag's `src` feeds the provider
reconciliation. No change-log entry is produced. -/
theorem C10_sidebag_only_difference_counterexample :
    processRecord cfgX Mode.update [] [(43, refQ10)] recC10 = some outC10 ∧
    (∀ kv ∈ addDerived recC10 kw0Q, kv.1 = "pk" ∨
      lookupF refQ10.fields kv.1 = some kv.2) ∧
    bagEqv jdQ refQ10.jsondata = false ∧
    outC10.changed = true ∧
    outC10.countInc = 1 ∧
    outC10.changesEntry = none ∧
    ((storeGet outC10.store 43).getD (createRef [] [])).providers_str
      = some "provA, provB" ∧
    refQ10.providers_str = some "provA" := by
  refine ⟨by decide, by decide, by decide, by decide, by decide, by decide,
    by decide, by decide⟩

/-- Witness for C10 (amended): running `recC10` against its own created
reference — jsondata comparison aside, nothing differs — yields no
change and keeps the summary strings. -/
theorem C10_sidebag_only_difference_witness :
    (applyRecord cfgX [(43, refQbase)] 43 (addDerived recC10 kw0Q) jdQ).changed
      = false ∧
    (applyRecord cfgX [(43, refQbase)] 43 (addDerived recC10 kw0Q) jdQ).changesEntry
      = none := by
  obtain ⟨h1, h2, -, -⟩ := C10_sidebag_only_difference cfgX [(43, refQbase)] 43
    (addDerived recC10 kw0Q) jdQ refQbase (by decide) (by decide) (by decide)
    (by decide) (by decide) (by decide) (by decide) (by decide) (by decide)
    (by decide)
  exact ⟨h1, h2⟩

end Glottolog
